import Mathlib

/-!
Verification of the ZeroTier network-hypervisor core (VL1 peer session and
VL2 network-config codec) against its natural-language specification.

The Rust sources embedded here are
  network-hypervisor/src/vl2/networkconfig.rs  (dictionary codec, IpRoute)
  network-hypervisor/src/vl1/peer.rs           (receive, send_udp, packet IV,
                                                Salsa per-packet key derivation)

Machine integers are modelled as Nat (or Int for signed values) with explicit
reduction modulo two to the width wherever the Rust code can overflow or
truncate.  External collaborator types that the crate treats as opaque
(NetworkId, Address, certificates, rules, InetAddress) are modelled by opaque
carriers plus codec functions passed in as parameters, matching the way the
source only ever calls their marshal and parse entry points.
-/

/-- Typed values held by the wire dictionary. Modelled from the spec: the
dictionary codec maps short ASCII keys to values of typed flavors (u64, bool,
string, bytes); a typed get after the matching typed set returns the value,
and a value stored with set_u64 may be read back with get_i64 by
two-complement reinterpretation (the underlying store is untyped bytes). -/
inductive DictVal where
  | str (s : String)
  | u64 (n : Nat)
  | boolV (b : Bool)
  | bytes (b : List Nat)
deriving DecidableEq

/-- The dictionary is a finite map from string keys to typed values. -/
abbrev Dict := List (String × DictVal)

def Dict.get : Dict → String → Option DictVal
  | [], _ => none
  | (k, v) :: rest, key => if k = key then some v else Dict.get rest key

def Dict.erase (d : Dict) (k : String) : Dict :=
  d.filter (fun kv => kv.1 != k)

def Dict.set (d : Dict) (k : String) (v : DictVal) : Dict :=
  Dict.erase d k ++ [(k, v)]

def Dict.get_str (d : Dict) (k : String) : Option String :=
  match Dict.get d k with
  | some (.str s) => some s
  | _ => none

def Dict.get_u64 (d : Dict) (k : String) : Option Nat :=
  match Dict.get d k with
  | some (.u64 n) => some n
  | _ => none

/-- Reading a stored u64 back as an i64 reinterprets the 64-bit pattern as a
signed value (the Rust dictionary stores untyped numerals). -/
def Dict.get_i64 (d : Dict) (k : String) : Option Int :=
  match Dict.get d k with
  | some (.u64 n) => some (if n < 2 ^ 63 then (n : Int) else (n : Int) - 2 ^ 64)
  | _ => none

def Dict.get_bool (d : Dict) (k : String) : Option Bool :=
  match Dict.get d k with
  | some (.boolV b) => some b
  | _ => none

def Dict.get_bytes (d : Dict) (k : String) : Option (List Nat) :=
  match Dict.get d k with
  | some (.bytes b) => some b
  | _ => none

def Dict.set_str (d : Dict) (k : String) (s : String) : Dict :=
  Dict.set d k (.str s)

def Dict.set_u64 (d : Dict) (k : String) (n : Nat) : Dict :=
  Dict.set d k (.u64 (n % 2 ^ 64))

def Dict.set_bool (d : Dict) (k : String) (b : Bool) : Dict :=
  Dict.set d k (.boolV b)

def Dict.set_bytes (d : Dict) (k : String) (b : List Nat) : Dict :=
  Dict.set d k (.bytes b)

/-- Conversion of an i64 value to the u64 bit pattern written by an
as-u64 cast in the source. -/
def i64ToU64 (i : Int) : Nat := (i % (2 ^ 64 : Int)).toNat

namespace proto_v1_field_name.network_config

def NETWORK_ID : String := "nwid"
def TIMESTAMP : String := "ts"
def REVISION : String := "r"
def ISSUED_TO : String := "id"
def MULTICAST_LIMIT : String := "ml"
def TYPE : String := "t"
def NAME : String := "n"
def MTU : String := "mtu"
def MAX_DELTA : String := "ctmd"
def CERTIFICATE_OF_MEMBERSHIP : String := "C"
def ROUTES : String := "RT"
def STATIC_IPS : String := "I"
def RULES : String := "R"
def TAGS : String := "TAG"
def CERTIFICATES_OF_OWNERSHIP : String := "COO"
def DNS : String := "DNS"
def CENTRAL_URL : String := "ssoce"
def SSO_ENABLED : String := "ssoe"
def SSO_VERSION : String := "ssov"
def SSO_AUTHENTICATION_URL : String := "aurl"
def SSO_AUTHENTICATION_EXPIRY_TIME : String := "aexpt"
def SSO_ISSUER_URL : String := "iurl"
def SSO_NONCE : String := "sson"
def SSO_STATE : String := "ssos"
def SSO_CLIENT_ID : String := "ssocid"

end proto_v1_field_name.network_config

/-- Modelled from the spec: protocol default virtual-network MTU constant,
used by decoding when the mtu key is absent. -/
def ZEROTIER_VIRTUAL_NETWORK_DEFAULT_MTU : Nat := 2800

/-- SSO authentication configuration object (networkconfig.rs). -/
structure SSOAuthConfiguration where
  version : Nat
  authentication_url : String
  authentication_expiry_time : Int
  issuer_url : String
  nonce : String
  state : String
  client_id : String
deriving DecidableEq

/-- Opaque carrier for a V1 tag; the source only uses its id field (for the
map key) and treats the rest as opaque parser output. -/
structure TagV where
  id : Nat
  body : Nat
deriving DecidableEq

/-- Network configuration object (networkconfig.rs). Fields whose types live
outside this crate (NetworkId, Address, routes, static IPs, rules,
certificates) are carried as opaque Nat handles or byte lists; HashSet and
HashMap become duplicate-free association lists. -/
structure NetworkConfig where
  network_id : Nat
  issued_to : Nat
  name : String
  motd : String
  «private» : Bool
  timestamp : Int
  max_delta : Int
  revision : Nat
  mtu : Nat
  multicast_limit : Nat
  routes : List Nat
  static_ips : List Nat
  rules : List Nat
  dns : List (String × List Nat)
  certificate_of_membership : Option Nat
  certificates_of_ownership : List Nat
  tags : List (Nat × TagV)
  banned : List Nat
  node_info : List (Nat × Nat)
  central_url : String
  sso : Option SSOAuthConfiguration
deriving DecidableEq

def NetworkConfig.new (network_id issued_to : Nat) : NetworkConfig where
  network_id := network_id
  issued_to := issued_to
  name := ""
  motd := ""
  «private» := true
  timestamp := 0
  max_delta := 0
  revision := 0
  mtu := 0
  multicast_limit := 0
  routes := []
  static_ips := []
  rules := []
  dns := []
  certificate_of_membership := none
  certificates_of_ownership := []
  tags := []
  banned := []
  node_info := []
  central_url := ""
  sso := none

/-- Bundle of the external codec entry points the networkconfig source calls
on types defined outside this crate. Encoding-direction functions that the
source unwraps are total; parsing-direction functions are fallible exactly as
in the source. -/
structure V1Codecs where
  netIdToString : Nat → String
  netIdFromStr : String → Option Nat
  addrToString : Nat → String
  addrFromStr : String → Option Nat
  routesToBytes : List Nat → List Nat
  routesFromBytes : List Nat → Option (List Nat)
  ipsToBytes : List Nat → List Nat
  ipsFromBytes : List Nat → Option (List Nat)
  rulesToBytes : List Nat → List Nat
  rulesFromBytes : List Nat → Option (List Nat)
  comToBytes : Nat → Option (List Nat)
  comFromBytes : List Nat → Except String Nat
  cooToBytes : Nat → Nat → Option (List Nat)
  cooFromBytes : List Nat → Except String (Nat × List Nat)
  tagToBytes : TagV → Nat → Option (List Nat)
  tagFromBytes : List Nat → Except String (TagV × List Nat)
  inetToBytes : Nat → Option (List Nat)
  inetUnmarshal : List Nat → Nat → Option (Nat × Nat)

/-- HashSet insert: no-op when the element is already present. -/
def listInsert {α : Type} [DecidableEq α] (l : List α) (x : α) : List α :=
  if x ∈ l then l else l ++ [x]

/-- HashMap insert keyed by tag id: replaces an existing binding. -/
def listInsertKV (m : List (Nat × TagV)) (i : Nat) (t : TagV) : List (Nat × TagV) :=
  m.filter (fun kv => kv.1 != i) ++ [(i, t)]

/-- Byte view of a string (the model treats one char as one byte, which is
exact for the ASCII names the V1 wire carries). -/
def strBytes (s : String) : List Nat := s.toList.map Char.toNat

/-- DNS blob encoding (networkconfig.rs lines 129-148): the first map entry
only; the name truncated to 127 bytes and zero-padded to 128, followed by the
marshaled servers (marshal failures are skipped). -/
def dnsEncode (cx : V1Codecs) (dns : List (String × List Nat)) : List Nat :=
  match dns.head? with
  | none => []
  | some (name, servers) =>
    let name_bytes := (strBytes name).take 127
    name_bytes ++ List.replicate (128 - name_bytes.length) 0
      ++ servers.foldl (fun acc s => acc ++ ((cx.inetToBytes s).getD [])) []

def List.foldlMOpt {α β : Type} (f : β → α → Option β) (init : β) : List α → Option β
  | [] => some init
  | x :: xs => do
    let b ← f init x
    List.foldlMOpt f b xs

/-- Encode a network configuration for sending to V1 nodes
(NetworkConfig::v1_proto_to_dictionary). Returns none exactly when the source
returns None: a missing certificate of membership, or a failing to-bytes call
on the certificate, a certificate of ownership, or a tag. -/
def NetworkConfig.v1_proto_to_dictionary (cx : V1Codecs) (controller_address : Nat)
    (c : NetworkConfig) : Option Dict := do
  let d : Dict := Dict.set_str [] proto_v1_field_name.network_config.NETWORK_ID (cx.netIdToString c.network_id)
  let d := if c.name = "" then d else Dict.set_str d proto_v1_field_name.network_config.NAME c.name
  let d := Dict.set_str d proto_v1_field_name.network_config.ISSUED_TO (cx.addrToString c.issued_to)
  let d := Dict.set_str d proto_v1_field_name.network_config.TYPE (if c.«private» then "0" else "1")
  let d := Dict.set_u64 d proto_v1_field_name.network_config.TIMESTAMP (i64ToU64 c.timestamp)
  let d := Dict.set_u64 d proto_v1_field_name.network_config.MAX_DELTA (i64ToU64 c.max_delta)
  let d := Dict.set_u64 d proto_v1_field_name.network_config.REVISION c.revision
  let d := Dict.set_u64 d proto_v1_field_name.network_config.MTU c.mtu
  let d := Dict.set_u64 d proto_v1_field_name.network_config.MULTICAST_LIMIT c.multicast_limit
  let d := if c.routes = [] then d else
    Dict.set_bytes d proto_v1_field_name.network_config.ROUTES (cx.routesToBytes c.routes)
  let d := if c.static_ips = [] then d else
    Dict.set_bytes d proto_v1_field_name.network_config.STATIC_IPS (cx.ipsToBytes c.static_ips)
  let d := if c.rules = [] then d else
    Dict.set_bytes d proto_v1_field_name.network_config.RULES (cx.rulesToBytes c.rules)
  let d := if c.dns = [] then d else
    Dict.set_bytes d proto_v1_field_name.network_config.DNS (dnsEncode cx c.dns)
  let com ← c.certificate_of_membership
  let com_bytes ← cx.comToBytes com
  let d := Dict.set_bytes d proto_v1_field_name.network_config.CERTIFICATE_OF_MEMBERSHIP com_bytes
  let d ← if c.certificates_of_ownership = [] then some d else do
    let certs ← List.foldlMOpt
      (fun acc coo => (cx.cooToBytes coo controller_address).map (acc ++ ·))
      [] c.certificates_of_ownership
    some (Dict.set_bytes d proto_v1_field_name.network_config.CERTIFICATES_OF_OWNERSHIP certs)
  let d ← if c.tags = [] then some d else do
    let certs ← List.foldlMOpt
      (fun acc kv => (cx.tagToBytes kv.2 controller_address).map (acc ++ ·))
      [] c.tags
    some (Dict.set_bytes d proto_v1_field_name.network_config.TAGS certs)
  let d := if c.central_url = "" then d else Dict.set_str d proto_v1_field_name.network_config.CENTRAL_URL c.central_url
  let d := match c.sso with
    | some sso =>
      let d := Dict.set_bool d proto_v1_field_name.network_config.SSO_ENABLED true
      let d := Dict.set_u64 d proto_v1_field_name.network_config.SSO_VERSION sso.version
      let d := Dict.set_str d proto_v1_field_name.network_config.SSO_AUTHENTICATION_URL sso.authentication_url
      let d := Dict.set_u64 d proto_v1_field_name.network_config.SSO_AUTHENTICATION_EXPIRY_TIME
        (i64ToU64 sso.authentication_expiry_time)
      let d := Dict.set_str d proto_v1_field_name.network_config.SSO_ISSUER_URL sso.issuer_url
      let d := Dict.set_str d proto_v1_field_name.network_config.SSO_NONCE sso.nonce
      let d := Dict.set_str d proto_v1_field_name.network_config.SSO_STATE sso.state
      Dict.set_str d proto_v1_field_name.network_config.SSO_CLIENT_ID sso.client_id
    | none => Dict.set_bool d proto_v1_field_name.network_config.SSO_ENABLED false
  some d

/-- Lift an Option to Except with the given error reason, as the
ok_or(InvalidParameterError(..)) calls in the source. -/
def req {α : Type} (o : Option α) (e : String) : Except String α :=
  match o with
  | some a => .ok a
  | none => .error e

def isOkE {ε α : Type} : Except ε α → Bool
  | .ok _ => true
  | .error _ => false

/-- Repeated parse of a concatenated section (the while-not-empty loops over
certificates of ownership and tags). The fuel argument bounds the iteration
count; it is always called with the byte length of the section, which is
enough fuel for any parser that consumes at least one byte per element, and a
non-consuming parser is reported as an error rather than modelled as the
divergence the source would exhibit. -/
def parseChain {α : Type} (step : List Nat → Except String (α × List Nat)) :
    Nat → List Nat → Except String (List α)
  | _, [] => .ok []
  | 0, _ :: _ => .error "non-terminating section"
  | fuel + 1, b :: bs => do
    let xr ← step (b :: bs)
    let xs ← parseChain step fuel xr.2
    .ok (xr.1 :: xs)

/-- The while-cursor-below-length loop that parses DNS server addresses
(networkconfig.rs lines 263-270); the loop breaks (without error) on the
first failed parse. Fuel bounds the iteration count as in parseChain. -/
def dnsServersLoop (cx : V1Codecs) (tmp : List Nat) :
    Nat → Nat → List Nat → List Nat
  | 0, _, servers => servers
  | fuel + 1, cursor, servers =>
    if cursor < tmp.length then
      match cx.inetUnmarshal tmp cursor with
      | some sc => dnsServersLoop cx tmp fuel sc.2 (listInsert servers sc.1)
      | none => servers
    else servers

/-- DNS blob decoding (networkconfig.rs lines 249-276): only a blob whose
length is strictly between 128 and 1024 is examined; the name is the bytes
before the first zero in the 128-byte prefix; servers parse from byte 128 on;
an entry is produced only when both name and server set are non-empty. -/
def dnsDecode (cx : V1Codecs) (o : Option (List Nat)) : List (String × List Nat) :=
  match o with
  | none => []
  | some dns_bin =>
    if 128 < dns_bin.length ∧ dns_bin.length < 1024 then
      let name_bytes := (dns_bin.take 128).takeWhile (fun b => b ≠ 0)
      let name := String.mk (name_bytes.map Char.ofNat)
      if name ≠ "" then
        let tmp := dns_bin.drop 128
        let servers := dnsServersLoop cx tmp (tmp.length + 1) 0 []
        if servers ≠ [] then [(name, servers)] else []
      else []
    else []

/-- The projection of a dictionary onto the typed reads the V1 decoder
performs; the decoder consumes the dictionary only through this view. -/
structure DictView where
  nwid : Option String
  name : Option String
  issuedTo : Option String
  typeStr : Option String
  ts : Option Int
  maxDelta : Option Int
  revision : Option Nat
  mtu : Option Nat
  multicastLimit : Option Nat
  routes : Option (List Nat)
  staticIps : Option (List Nat)
  rules : Option (List Nat)
  dns : Option (List Nat)
  com : Option (List Nat)
  coo : Option (List Nat)
  tags : Option (List Nat)
  centralUrl : Option String
  ssoEnabled : Option Bool
  ssoVersion : Option Nat
  ssoAuthUrl : Option String
  ssoAuthExpiry : Option Int
  ssoIssuerUrl : Option String
  ssoNonce : Option String
  ssoState : Option String
  ssoClientId : Option String
deriving DecidableEq

open proto_v1_field_name.network_config in
def Dict.view (d : Dict) : DictView where
  nwid := Dict.get_str d NETWORK_ID
  name := Dict.get_str d NAME
  issuedTo := Dict.get_str d ISSUED_TO
  typeStr := Dict.get_str d TYPE
  ts := Dict.get_i64 d TIMESTAMP
  maxDelta := Dict.get_i64 d MAX_DELTA
  revision := Dict.get_u64 d REVISION
  mtu := Dict.get_u64 d MTU
  multicastLimit := Dict.get_u64 d MULTICAST_LIMIT
  routes := Dict.get_bytes d ROUTES
  staticIps := Dict.get_bytes d STATIC_IPS
  rules := Dict.get_bytes d RULES
  dns := Dict.get_bytes d DNS
  com := Dict.get_bytes d CERTIFICATE_OF_MEMBERSHIP
  coo := Dict.get_bytes d CERTIFICATES_OF_OWNERSHIP
  tags := Dict.get_bytes d TAGS
  centralUrl := Dict.get_str d CENTRAL_URL
  ssoEnabled := Dict.get_bool d SSO_ENABLED
  ssoVersion := Dict.get_u64 d SSO_VERSION
  ssoAuthUrl := Dict.get_str d SSO_AUTHENTICATION_URL
  ssoAuthExpiry := Dict.get_i64 d SSO_AUTHENTICATION_EXPIRY_TIME
  ssoIssuerUrl := Dict.get_str d SSO_ISSUER_URL
  ssoNonce := Dict.get_str d SSO_NONCE
  ssoState := Dict.get_str d SSO_STATE
  ssoClientId := Dict.get_str d SSO_CLIENT_ID

/-- SSO block decoding (networkconfig.rs lines 303-324): present exactly when
the enabled flag reads true; every field falls back to a default. -/
def ssoDecode (v : DictView) : Option SSOAuthConfiguration :=
  if v.ssoEnabled.getD false then
    some
      { version := (v.ssoVersion.getD 0) % 2 ^ 32
        authentication_url := v.ssoAuthUrl.getD ""
        authentication_expiry_time := v.ssoAuthExpiry.getD 0
        issuer_url := v.ssoIssuerUrl.getD ""
        nonce := v.ssoNonce.getD ""
        state := v.ssoState.getD ""
        client_id := v.ssoClientId.getD "" }
  else none

/-- The two-step required-identifier reads of the decoder: a missing key is
one error, a failing parse another (the ok_or and map_err pairs at
networkconfig.rs lines 201-210). -/
def idSection {A : Type} (f : String → Option A) (o : Option String)
    (emiss einv : String) : Except String A :=
  match o with
  | none => .error emiss
  | some s => req (f s) einv

/-- An optional variable-length section (routes, static IPs, rules): absent
means empty, present but unparsable is an error (the source reuses the same
reason string for all three). -/
def bytesSection (p : List Nat → Option (List Nat)) (o : Option (List Nat)) :
    Except String (List Nat) :=
  match o with
  | none => .ok []
  | some b => req (p b) "invalid route object(s)"

/-- The mandatory certificate-of-membership read: missing key is an error
and the parser's own error propagates (lines 278-281). -/
def comSection (p : List Nat → Except String Nat) (o : Option (List Nat)) :
    Except String Nat :=
  match o with
  | none => .error "missing certificate of membership"
  | some b => p b

/-- An optional concatenated-certificates section (certificates of
ownership, tags): absent means empty, otherwise the while-not-empty parse
loop runs over the blob (lines 283-297). -/
def chainSection {A : Type} (step : List Nat → Except String (A × List Nat))
    (o : Option (List Nat)) : Except String (List A) :=
  match o with
  | none => .ok []
  | some b => parseChain step b.length b

/-- Decode a V1 network configuration from the typed view of a dictionary
(NetworkConfig::v1_proto_from_dictionary, networkconfig.rs lines 200-327). -/
def v1_decode_view (cx : V1Codecs) (v : DictView) : Except String NetworkConfig := do
  let nwid ← idSection cx.netIdFromStr v.nwid "missing network ID" "invalid network ID"
  let issued_to_address ← idSection cx.addrFromStr v.issuedTo
    "missing address" "invalid address"
  let name := v.name.getD ""
  let priv : Bool := v.typeStr.elim true (fun x => x = "1")
  let ts ← req v.ts "missing timestamp"
  let max_delta := v.maxDelta.getD 0
  let revision := v.revision.getD 0
  let mtu := (v.mtu.getD ZEROTIER_VIRTUAL_NETWORK_DEFAULT_MTU) % 2 ^ 16
  let multicast_limit := (v.multicastLimit.getD 0) % 2 ^ 32
  let routes ← bytesSection cx.routesFromBytes v.routes
  let static_ips ← bytesSection cx.ipsFromBytes v.staticIps
  let rules ← bytesSection cx.rulesFromBytes v.rules
  let dns := dnsDecode cx v.dns
  let com ← comSection cx.comFromBytes v.com
  let coos ← chainSection cx.cooFromBytes v.coo
  let tag_list ← chainSection cx.tagFromBytes v.tags
  .ok
    { NetworkConfig.new nwid issued_to_address with
      name := name
      «private» := priv
      timestamp := ts
      max_delta := max_delta
      revision := revision
      mtu := mtu
      multicast_limit := multicast_limit
      routes := routes.foldl listInsert []
      static_ips := static_ips.foldl listInsert []
      rules := rules
      dns := dns
      certificate_of_membership := some com
      certificates_of_ownership := coos
      tags := tag_list.foldl (fun m t => listInsertKV m t.id t) []
      central_url := v.centralUrl.getD ""
      sso := ssoDecode v }

/-- Decode a V1 format network configuration
(NetworkConfig::v1_proto_from_dictionary). -/
def NetworkConfig.v1_proto_from_dictionary (cx : V1Codecs) (d : Dict) :
    Except String NetworkConfig :=
  v1_decode_view cx (Dict.view d)

/-- Modelled from the spec: the fixed packet header is 28 bytes. -/
def PACKET_HEADER_SIZE : Nat := 28

/-- Modelled from the spec: fragment header is 8-byte packet ID, 5-byte
destination, 1-byte fragment indicator, 1-byte total/number composite,
1-byte reserved/hops, 16 bytes in all. -/
def FRAGMENT_HEADER_SIZE : Nat := 16

/-- Modelled from the spec: the flags/cipher/hops byte sits after the 8-byte
packet ID and the two 5-byte addresses, at offset 18. -/
def HEADER_FLAGS_FIELD_INDEX : Nat := 18

/-- Modelled from the spec: the hop count occupies the low 3 bits of the
flags byte; this mask keeps every bit except those mutable hop bits. -/
def HEADER_FLAGS_FIELD_MASK_HIDE_HOPS : Nat := 0xf8

/-- Modelled from the spec: the verb is the low 5 bits of the verb byte; the
high bits carry flags. -/
def VERB_MASK : Nat := 0x1f

/-- Modelled from the spec: protocol-assigned byte value of the HELLO verb. -/
def VERB_VL1_HELLO : Nat := 0x01

/-- Derive the per-packet key for Salsa20/12 and Poly1305
(salsa_derive_per_packet_key, peer.rs lines 125-135): clone the 48-byte
secret, XOR the first 18 header bytes into the first 18 key bytes, XOR the
hop-masked flags byte into byte 18, and XOR the two packet-size bytes into
bytes 19 and 20. -/
def salsa_derive_per_packet_key (key : Fin 48 → Nat) (hb : Fin 28 → Nat)
    (packet_size : Nat) : Fin 48 → Nat :=
  fun i =>
    if h18 : (i : Nat) < 18 then
      Nat.xor (key i) (hb ⟨i, by omega⟩)
    else if (i : Nat) = 18 then
      Nat.xor (key i) (Nat.land (hb ⟨HEADER_FLAGS_FIELD_INDEX, by decide⟩)
        HEADER_FLAGS_FIELD_MASK_HIDE_HOPS)
    else if (i : Nat) = 19 then
      Nat.xor (key i) (packet_size / 2 ^ 8 % 2 ^ 8)
    else if (i : Nat) = 20 then
      Nat.xor (key i) (packet_size % 2 ^ 8)
    else key i

/-- Create initialized Salsa20/12 and Poly1305 instances for a packet
(salsa_poly_create, peer.rs lines 139-146). The Salsa20/12 primitive is an
external black box, abstracted as a keystream function from the 32-byte key
and the 8-byte nonce to the byte at each stream position; the returned cipher
is that stream, and the Poly1305 one-time key is the result of encrypting 32
zero bytes in place, i.e. the first 32 keystream bytes. -/
def salsa_poly_create
    (salsa_keystream : (Fin 32 → Nat) → (Fin 8 → Nat) → Nat → Nat)
    (secret : Fin 48 → Nat) (hb : Fin 28 → Nat) (packet_size : Nat) :
    (Nat → Nat) × (Fin 32 → Nat) :=
  let key := salsa_derive_per_packet_key secret hb packet_size
  let salsa := salsa_keystream (fun i => key ⟨i, by omega⟩) (fun i => hb ⟨i, by omega⟩)
  (salsa, fun i => Nat.xor 0 (salsa i))

/-- The cipher selector carried in the packet header flags byte
(header.cipher()); the receive path only discriminates the three known
values against everything else. -/
inductive Cipher where
  | nocrypt_poly1305
  | salsa2012_poly1305
  | aes_gmac_siv
  | other
deriving DecidableEq

/-- Concatenation of the head-fragment payload with the payloads of the
trailing fragments (each already past its fragment header; a missing or
too-short fragment contributes nothing, as the and_then chains in the
source silently skip it). -/
def assemblePayload (frag0 : List Nat) (fragments : List (Option (List Nat))) :
    List Nat :=
  frag0 ++ fragments.foldl (fun acc f => acc ++ f.getD []) []

/-- Outcome of trying one session secret against the packet inside the
receive loop: hardDrop models the return statements that abandon the packet
regardless of remaining secrets (non-HELLO cleartext, unknown cipher);
success carries the reassembled plaintext; fail falls through to the next
secret. -/
inductive TrialResult where
  | hardDrop
  | success (payload : List Nat)
  | fail
deriving DecidableEq

/-- One iteration of the trial-decryption loop in Peer::receive (peer.rs
lines 211-266) for a given secret. The per-secret cryptography is abstracted:
dec is the streaming decryption under that secret (identity for the
cleartext mode) and auth says whether the MAC check for that secret passes
on this packet. -/
def trial (cipher : Cipher) (dec : List Nat → List Nat) (auth : Bool)
    (frag0 : List Nat) (fragments : List (Option (List Nat))) : TrialResult :=
  match cipher with
  | .nocrypt_poly1305 =>
    if Nat.land (frag0.headD 0) VERB_MASK = VERB_VL1_HELLO then
      if auth then .success (assemblePayload frag0 fragments) else .fail
    else .hardDrop
  | .salsa2012_poly1305 =>
    if auth then .success (dec (assemblePayload frag0 fragments)) else .fail
  | .aes_gmac_siv =>
    if auth then .success (dec (assemblePayload frag0 fragments)) else .fail
  | .other => .hardDrop

/-- The peer state Peer::receive can mutate. -/
structure PeerRecvState where
  last_receive_time_ticks : Int
  total_bytes_received : Nat
deriving DecidableEq

/-- The upcall receive makes on success: ph.handle_packet followed, when
declined, by the verb dispatch; none means no handler of any kind ran. -/
structure HandlerCall where
  forward_secrecy : Bool
  verb : Nat
  payload : List Nat
deriving DecidableEq

/-- The success tail of Peer::receive (peer.rs lines 283-303): store the
receive time, add payload length plus the 28-byte header to the byte total,
then hand the verb byte and payload to the handler; an empty payload has no
verb byte and nothing is dispatched. -/
def acceptPacket (fs : Bool) (p : List Nat) (time_ticks : Int)
    (s : PeerRecvState) : PeerRecvState × Option HandlerCall :=
  (⟨time_ticks, s.total_bytes_received + (p.length + PACKET_HEADER_SIZE)⟩,
    p.head?.map (fun verb => ⟨fs, verb, p⟩))

namespace Peer

/-- Peer::receive (peer.rs lines 203-305). The trial list is the ephemeral
secret when present (else the static secret) followed by the static secret;
forward secrecy starts true and is cleared only when the first trial fails
while an ephemeral secret exists; a failure of the trial whose secret is
pointer-equal to the static secret abandons the packet. -/
def receive (ephemeralPresent : Bool) (decEph decStatic : List Nat → List Nat)
    (authEph authStatic : Bool) (cipher : Cipher) (time_ticks : Int)
    (frag0 : List Nat) (fragments : List (Option (List Nat)))
    (s : PeerRecvState) : PeerRecvState × Option HandlerCall :=
  let dec1 := if ephemeralPresent then decEph else decStatic
  let auth1 := if ephemeralPresent then authEph else authStatic
  match trial cipher dec1 auth1 frag0 fragments with
  | .hardDrop => (s, none)
  | .success p => acceptPacket true p time_ticks s
  | .fail =>
    if ephemeralPresent then
      match trial cipher decStatic authStatic frag0 fragments with
      | .hardDrop => (s, none)
      | .success p => acceptPacket false p time_ticks s
      | .fail => (s, none)
    else (s, none)

end Peer

/-- The condition under which Peer::receive accepts the packet (some trial
secret authenticates it): either the first trial succeeds, or an ephemeral
secret exists, its trial fails, and the static-secret trial succeeds. -/
def recvAccepts (ephemeralPresent : Bool) (decEph decStatic : List Nat → List Nat)
    (authEph authStatic : Bool) (cipher : Cipher)
    (frag0 : List Nat) (fragments : List (Option (List Nat))) : Prop :=
  (∃ p, trial cipher (if ephemeralPresent then decEph else decStatic)
      (if ephemeralPresent then authEph else authStatic) frag0 fragments
      = .success p)
  ∨ (ephemeralPresent = true
      ∧ trial cipher decEph authEph frag0 fragments = .fail
      ∧ ∃ p, trial cipher decStatic authStatic frag0 fragments = .success p)

/-- One wire_send call made by send_udp: the half-open byte range of the
packet sent in this datagram and, for fragments, the total_and_fragment_no
byte of the prefixed FragmentHeader (none for the unprefixed head). -/
structure WireCall where
  off : Nat
  len : Nat
  hdr : Option Nat
deriving DecidableEq

/-- Fragment count computed by send_udp (peer.rs line 329):
quotient plus one when a remainder exists. -/
def fragment_count (mtu fhs size : Nat) : Nat :=
  (size - mtu) / (mtu - fhs) + (if (size - mtu) % (mtu - fhs) = 0 then 0 else 1)

namespace Peer

/-- The fragment-emission loop of send_udp (peer.rs lines 341-353): bump the
fragment number (a u8, so modulo 256), send the header plus the next chunk,
abort on a failed send, and advance the cursor by the chunk size, which is
the minimum of the remaining bytes and the fragment capacity. The wire
argument gives the result of the i-th wire_send call of this send_udp
invocation; fuel bounds the recursion and never runs out when fhs < mtu. -/
def fragLoop (mtu fhs size : Nat) (wire : Nat → Bool) :
    Nat → Nat → Nat → Nat → Bool × List WireCall
  | 0, _, _, _ => (false, [])
  | fuel + 1, pos, hdr, idx =>
    let chunk_size := min (size - pos) (mtu - fhs)
    let hdr2 := (hdr + 1) % 256
    if wire idx then
      if pos + chunk_size < size then
        let r := fragLoop mtu fhs size wire fuel (pos + chunk_size) hdr2 (idx + 1)
        (r.1, ⟨pos, chunk_size, some hdr2⟩ :: r.2)
      else (true, [⟨pos, chunk_size, some hdr2⟩])
    else (false, [⟨pos, chunk_size, some hdr2⟩])

/-- Peer::send_udp (peer.rs lines 316-359), abstracted over the transport
MTU, the fragment header size and the caller interface: returns whether
every wire_send succeeded together with the list of wire_send calls made,
each described by the byte range of packet data it carried and the fragment
header byte it was prefixed with. -/
def send_udp (mtu fhs : Nat) (wire : Nat → Bool) (size : Nat) :
    Bool × List WireCall :=
  if size > mtu then
    if wire 0 then
      let fc := fragment_count mtu fhs size
      let r := fragLoop mtu fhs size wire size mtu ((fc + 1) * 16 % 256) 1
      (r.1, ⟨0, mtu, none⟩ :: r.2)
    else (false, [⟨0, mtu, none⟩])
  else (wire 0, [⟨0, size, none⟩])

end Peer

/-- The u64 modulus of the packet IV counter. -/
def U64 : Nat := 2 ^ 64

namespace Peer

/-- Peer::new initializes packet_iv_counter from a secure random 64-bit
value (peer.rs line 183); the randomness source is a parameter. -/
def packet_iv_counter_init (rand : Nat) : Nat := rand % U64

/-- Peer::next_packet_iv (peer.rs lines 196-198): fetch_add(1) on a u64
counter, returning the previous value; the counter wraps modulo 2^64. -/
def next_packet_iv (counter : Nat) : Nat × Nat :=
  (counter, (counter + 1) % U64)

/-- Counter contents after k calls to next_packet_iv on a peer whose counter
started from the given random value. -/
def ivCounter (rand : Nat) : Nat → Nat
  | 0 => packet_iv_counter_init rand
  | k + 1 => (next_packet_iv (ivCounter rand k)).2

/-- Value returned by the k-th (0-based) call to next_packet_iv. -/
def ivValue (rand k : Nat) : Nat := (next_packet_iv (ivCounter rand k)).1

end Peer

/-- The entry points of the external InetAddress type that IpRoute marshal
and unmarshal call (InetAddress is outside this crate). -/
structure InetCodec (Inet : Type) where
  marshal : Inet → List Nat
  unmarshal : List Nat → Nat → Option (Inet × Nat)
  is_nil : Inet → Bool

/-- Big-endian bytes written by Buffer::append_u16 for a u16 value. -/
def appendU16 (x : Nat) : List Nat := [x % 2 ^ 16 / 2 ^ 8, x % 2 ^ 8]

/-- Buffer::read_u16: two big-endian bytes at the cursor, if present. -/
def readU16 (buf : List Nat) (cursor : Nat) : Option (Nat × Nat) :=
  if cursor + 2 ≤ buf.length then
    some (buf.getD cursor 0 * 2 ^ 8 + buf.getD (cursor + 1) 0, cursor + 2)
  else none

/-- Statically pushed L3 IP route (networkconfig.rs lines 396-402),
parameterized by the external InetAddress type. -/
structure IpRoute (Inet : Type) where
  target : Inet
  via : Option Inet
  flags : Nat
  metric : Nat

namespace IpRoute

/-- Marshalable::marshal for IpRoute (networkconfig.rs lines 407-420):
target, then the via address or a single zero byte (the nil InetAddress)
when absent, then flags and metric as big-endian u16. -/
def marshal {Inet : Type} (c : InetCodec Inet) (r : IpRoute Inet) : List Nat :=
  c.marshal r.target
    ++ (match r.via with
        | some via => c.marshal via
        | none => [0])
    ++ appendU16 r.flags ++ appendU16 r.metric

/-- Marshalable::unmarshal for IpRoute (networkconfig.rs lines 422-439):
target, via (mapped to none when nil), flags, metric, returning the value
and the advanced cursor. -/
def unmarshal {Inet : Type} (c : InetCodec Inet) (buf : List Nat)
    (cursor : Nat) : Option (IpRoute Inet × Nat) := do
  let tc ← c.unmarshal buf cursor
  let vc ← c.unmarshal buf tc.2
  let fc ← readU16 buf vc.2
  let mc ← readU16 buf fc.2
  some (⟨tc.1, if c.is_nil vc.1 then none else some vc.1, fc.1, mc.1⟩, mc.2)

end IpRoute

/-- The exact failure condition of v1_proto_from_dictionary, phrased on the
typed view: missing or unparsable network ID, missing or unparsable
issued-to address, missing timestamp, a malformed routes, static-IPs or
rules section, a missing or invalid certificate of membership, or a
malformed certificates-of-ownership or tags section; no other key can make
decoding fail. -/
def decodeFailCond (cx : V1Codecs) (v : DictView) : Prop :=
  (v.nwid = none ∨ ∃ s, v.nwid = some s ∧ cx.netIdFromStr s = none)
  ∨ (v.issuedTo = none ∨ ∃ s, v.issuedTo = some s ∧ cx.addrFromStr s = none)
  ∨ v.ts = none
  ∨ (∃ b, v.routes = some b ∧ cx.routesFromBytes b = none)
  ∨ (∃ b, v.staticIps = some b ∧ cx.ipsFromBytes b = none)
  ∨ (∃ b, v.rules = some b ∧ cx.rulesFromBytes b = none)
  ∨ (v.com = none ∨ ∃ b, v.com = some b ∧ isOkE (cx.comFromBytes b) = false)
  ∨ (∃ b, v.coo = some b ∧ isOkE (parseChain cx.cooFromBytes b.length b) = false)
  ∨ (∃ b, v.tags = some b ∧ isOkE (parseChain cx.tagFromBytes b.length b) = false)

/-- The dictionary keys the V1 decoder reads; every other key is unknown to
it. -/
def v1DecodeKeys : List String :=
  ["nwid", "n", "id", "t", "ts", "ctmd", "r", "mtu", "ml", "RT", "I", "R",
   "DNS", "C", "COO", "TAG", "ssoce", "ssoe", "ssov", "aurl", "aexpt",
   "iurl", "sson", "ssos", "ssocid"]

/-- Index of the first false answer of the wire within the next n calls
starting at the given call index. -/
def firstFalse (wire : Nat → Bool) : Nat → Nat → Option Nat
  | _, 0 => none
  | start, n + 1 => if wire start then firstFalse wire (start + 1) n else some start

/-- Ceiling division expressed the way send_udp computes it. -/
def cdiv (a b : Nat) : Nat := a / b + (if a % b = 0 then 0 else 1)

/-- Concrete instantiation of the external codecs, used to evaluate the
embedded encoder and decoder on closed inputs. -/
def testCodecs : V1Codecs where
  netIdToString := fun n => String.mk (List.replicate n 'a')
  netIdFromStr := fun s => some s.data.length
  addrToString := fun n => String.mk (List.replicate n 'b')
  addrFromStr := fun s => some s.data.length
  routesToBytes := fun _ => []
  routesFromBytes := fun _ => some []
  ipsToBytes := fun _ => []
  ipsFromBytes := fun _ => some []
  rulesToBytes := fun _ => []
  rulesFromBytes := fun _ => some []
  comToBytes := fun c => some [c]
  comFromBytes := fun b => match b with
    | [c] => .ok c
    | _ => .error "invalid certificate"
  cooToBytes := fun _ _ => none
  cooFromBytes := fun _ => .error "invalid certificate of ownership"
  tagToBytes := fun _ _ => none
  tagFromBytes := fun _ => .error "invalid tag"
  inetToBytes := fun _ => none
  inetUnmarshal := fun _ _ => none

/-- A concrete private network configuration holding a certificate of
membership, used to evaluate the codec round trip. -/
def testConfig : NetworkConfig :=
  { NetworkConfig.new 3 2 with
    timestamp := 7
    certificate_of_membership := some 9 }

/-- Concrete instantiation of the external InetAddress codec over Nat: the
nil address is 0 and marshals to the single zero byte; any other address a
marshals to the two-byte sequence 1, a. -/
def testInet : InetCodec Nat where
  marshal := fun a => if a = 0 then [0] else [1, a]
  unmarshal := fun buf cur =>
    if cur < buf.length then
      match buf.getD cur 0 with
      | 0 => some (0, cur + 1)
      | 1 => if cur + 1 < buf.length then some (buf.getD (cur + 1) 0, cur + 2) else none
      | _ => none
    else none
  is_nil := fun a => a == 0

theorem ivValue_eq_counter (rand k : Nat) :
    Peer.ivValue rand k = Peer.ivCounter rand k := rfl

theorem ivCounter_closed (rand : Nat) (h : rand < U64) (k : Nat) :
    Peer.ivCounter rand k = (rand + k) % U64 := by
  induction k with
  | zero =>
    simp [Peer.ivCounter, Peer.packet_iv_counter_init, Nat.mod_eq_of_lt h]
  | succ n ih =>
    show (Peer.next_packet_iv (Peer.ivCounter rand n)).2 = (rand + (n + 1)) % U64
    rw [ih]
    show ((rand + n) % U64 + 1) % U64 = (rand + (n + 1)) % U64
    simp only [U64]
    omega

/-- C7 counterexample: the packet IV counter is a u64 and wraps, so with the
secure random initial value 2 to the 64 minus 1 the value returned by the
second call is smaller than the value returned by the first, refuting strict
monotonicity over the whole lifetime. -/
theorem C7_counterexample :
    ¬ (Peer.ivValue (2 ^ 64 - 1) 0 < Peer.ivValue (2 ^ 64 - 1) 1) := by decide

/-- C7 (amended): the counter starts at the supplied secure random 64-bit
value and each next_packet_iv call returns the current counter and increments
it by exactly one modulo 2 to the 64; the k-th returned IV is
(rand + k) mod 2 to the 64, and the returned values are strictly increasing
as long as no 64-bit wraparound has occurred. -/
theorem C7_theorem (rand k : Nat) (h : rand < U64) :
    Peer.ivValue rand k = (rand + k) % U64
    ∧ Peer.ivCounter rand (k + 1) = (Peer.ivCounter rand k + 1) % U64
    ∧ (rand + k + 1 < U64 → Peer.ivValue rand k < Peer.ivValue rand (k + 1)) := by
  refine ⟨by rw [ivValue_eq_counter, ivCounter_closed rand h], rfl, fun hlt => ?_⟩
  rw [ivValue_eq_counter, ivValue_eq_counter, ivCounter_closed rand h,
    ivCounter_closed rand h]
  have h1 : (rand + k) % U64 = rand + k := Nat.mod_eq_of_lt (by omega)
  have h2 : (rand + (k + 1)) % U64 = rand + (k + 1) := Nat.mod_eq_of_lt (by omega)
  omega

theorem C7_witness :
    Peer.ivValue 5 3 = (5 + 3) % U64
    ∧ Peer.ivCounter 5 4 = (Peer.ivCounter 5 3 + 1) % U64
    ∧ (5 + 3 + 1 < U64 → Peer.ivValue 5 3 < Peer.ivValue 5 4) :=
  C7_theorem 5 3 (by decide)

/-- C5: the Salsa per-packet key is the session secret with the first 18
header bytes XORed into bytes 0..18, the hop-masked flags byte XORed into
byte 18, the two packet-size bytes XORed into bytes 19 and 20, and the rest
untouched; the Salsa20/12 instance is keyed with the first 32 derived bytes
and the 8-byte packet ID as nonce, and the Poly1305 one-time key is the
first 32 bytes of that keystream. -/
theorem C5_theorem (ks : (Fin 32 → Nat) → (Fin 8 → Nat) → Nat → Nat)
    (key : Fin 48 → Nat) (hb : Fin 28 → Nat) (sz : Nat) :
    (∀ (i : Nat) (h : i < 18),
      salsa_derive_per_packet_key key hb sz ⟨i, by omega⟩
        = Nat.xor (key ⟨i, by omega⟩) (hb ⟨i, by omega⟩))
    ∧ salsa_derive_per_packet_key key hb sz ⟨18, by omega⟩
        = Nat.xor (key ⟨18, by omega⟩)
            (Nat.land (hb ⟨HEADER_FLAGS_FIELD_INDEX, by decide⟩)
              HEADER_FLAGS_FIELD_MASK_HIDE_HOPS)
    ∧ salsa_derive_per_packet_key key hb sz ⟨19, by omega⟩
        = Nat.xor (key ⟨19, by omega⟩) (sz / 2 ^ 8 % 2 ^ 8)
    ∧ salsa_derive_per_packet_key key hb sz ⟨20, by omega⟩
        = Nat.xor (key ⟨20, by omega⟩) (sz % 2 ^ 8)
    ∧ (∀ (i : Nat) (h20 : 20 < i) (h48 : i < 48),
      salsa_derive_per_packet_key key hb sz ⟨i, h48⟩ = key ⟨i, h48⟩)
    ∧ (salsa_poly_create ks key hb sz).1
        = ks (fun j => salsa_derive_per_packet_key key hb sz ⟨j, by omega⟩)
            (fun j => hb ⟨j, by omega⟩)
    ∧ ∀ (i : Fin 32),
      (salsa_poly_create ks key hb sz).2 i
        = ks (fun j => salsa_derive_per_packet_key key hb sz ⟨j, by omega⟩)
            (fun j => hb ⟨j, by omega⟩) (i : Nat) := by
  refine ⟨fun i h => ?_, ?_, ?_, ?_, fun i h20 h48 => ?_, rfl, fun i => ?_⟩
  · simp [salsa_derive_per_packet_key, h]
  · simp [salsa_derive_per_packet_key]
  · simp [salsa_derive_per_packet_key]
  · simp [salsa_derive_per_packet_key]
  · have hne18 : ¬ ((⟨i, h48⟩ : Fin 48) : Nat) < 18 := by simp; omega
    simp only [salsa_derive_per_packet_key, dif_neg hne18]
    rw [if_neg (by omega), if_neg (by omega), if_neg (by omega)]
  · exact Nat.zero_xor _

theorem C5_witness :
    salsa_derive_per_packet_key (fun i => (i : Nat)) (fun i => 2 * (i : Nat)) 777
        ⟨5, by omega⟩
      = Nat.xor ((fun i => (i : Nat)) (⟨5, by omega⟩ : Fin 48))
          ((fun i => 2 * (i : Nat)) (⟨5, by omega⟩ : Fin 28))
    ∧ salsa_derive_per_packet_key (fun i => (i : Nat)) (fun i => 2 * (i : Nat)) 777
        ⟨21, by omega⟩
      = (fun i => (i : Nat)) (⟨21, by omega⟩ : Fin 48) :=
  ⟨(C5_theorem (fun _ _ i => i) (fun i => (i : Nat)) (fun i => 2 * (i : Nat)) 777).1
      5 (by omega),
    (C5_theorem (fun _ _ i => i) (fun i => (i : Nat)) (fun i => 2 * (i : Nat)) 777).2.2.2.2.1
      21 (by omega) (by omega)⟩

/-- C2 counterexample: with an empty ephemeral-secret slot and a packet the
static secret authenticates, receive hands the handler
forward_secrecy = true, not false as the claim requires. -/
theorem C2_counterexample :
    (Peer.receive false id id false true .salsa2012_poly1305 0 [8] [] ⟨0, 0⟩).2
      = some ⟨true, 8, [8]⟩
    ∧ (⟨true, 8, [8]⟩ : HandlerCall).forward_secrecy ≠ false := by
  exact ⟨by decide, by decide⟩

/-- C2 (amended): whenever receive invokes a handler, forward_secrecy is
true exactly when the first trial secret (the ephemeral when the slot is
non-empty, otherwise the static secret itself) authenticated the packet, and
false exactly when the slot is non-empty, the ephemeral trial failed, and
the static secret authenticated on the second trial; in particular an
accepted packet with an empty ephemeral slot reports forward_secrecy =
true even though only the static secret authenticated it. -/
theorem C2_theorem (ephemeralPresent : Bool) (decEph decStatic : List Nat → List Nat)
    (authEph authStatic : Bool) (cipher : Cipher) (t : Int) (frag0 : List Nat)
    (fragments : List (Option (List Nat))) (s : PeerRecvState) (call : HandlerCall)
    (h : (Peer.receive ephemeralPresent decEph decStatic authEph authStatic cipher t
        frag0 fragments s).2 = some call) :
    (call.forward_secrecy = true ↔
      ∃ p, trial cipher (if ephemeralPresent then decEph else decStatic)
        (if ephemeralPresent then authEph else authStatic) frag0 fragments
        = .success p)
    ∧ (call.forward_secrecy = false ↔
      ephemeralPresent = true
      ∧ trial cipher decEph authEph frag0 fragments = .fail
      ∧ ∃ p, trial cipher decStatic authStatic frag0 fragments = .success p) := by
  have hAcc : ∀ (fs : Bool) (p : List Nat) (t0 : Int) (s0 : PeerRecvState)
      (c0 : HandlerCall), (acceptPacket fs p t0 s0).2 = some c0 →
      c0.forward_secrecy = fs := by
    intro fs p t0 s0 c0 hc
    unfold acceptPacket at hc
    cases hp : p.head? with
    | none => rw [hp] at hc; exact absurd hc (by simp)
    | some v =>
      rw [hp] at hc
      simp only [Option.map_some'] at hc
      rw [← Option.some.injEq] at hc
      cases hc
      rfl
  cases ephemeralPresent with
  | false =>
    unfold Peer.receive at h
    simp only [Bool.false_eq_true, if_false] at h ⊢
    cases h1 : trial cipher decStatic authStatic frag0 fragments with
    | hardDrop => rw [h1] at h; exact absurd h (by simp)
    | fail => rw [h1] at h; exact absurd h (by simp)
    | success p =>
      rw [h1] at h
      have hfs := hAcc _ _ _ _ _ h
      rw [hfs]
      constructor
      · simp only [true_iff]
        exact ⟨p, rfl⟩
      · constructor
        · intro hx; exact absurd hx (by simp)
        · rintro ⟨hx, -, -⟩; exact absurd hx (by simp)
  | true =>
    unfold Peer.receive at h
    simp only [if_true] at h ⊢
    cases h1 : trial cipher decEph authEph frag0 fragments with
    | hardDrop => rw [h1] at h; exact absurd h (by simp)
    | success p =>
      rw [h1] at h
      have hfs := hAcc _ _ _ _ _ h
      rw [hfs]
      constructor
      · simp only [true_iff]
        exact ⟨p, rfl⟩
      · constructor
        · intro hx; exact absurd hx (by simp)
        · rintro ⟨-, hfail, -⟩
          exact absurd hfail (by simp)
    | fail =>
      rw [h1] at h
      cases h2 : trial cipher decStatic authStatic frag0 fragments with
      | hardDrop => rw [h2] at h; exact absurd h (by simp)
      | fail => rw [h2] at h; exact absurd h (by simp)
      | success q =>
        rw [h2] at h
        have hfs := hAcc _ _ _ _ _ h
        rw [hfs]
        constructor
        · constructor
          · intro hx; exact absurd hx (by simp)
          · rintro ⟨p, hp⟩
            exact absurd hp (by simp)
        · exact ⟨fun _ => ⟨trivial, rfl, q, rfl⟩, fun _ => rfl⟩

theorem C2_witness :
    ((⟨true, 8, [8]⟩ : HandlerCall).forward_secrecy = true ↔
      ∃ p, trial .salsa2012_poly1305 id true [8] [] = .success p)
    ∧ ((⟨true, 8, [8]⟩ : HandlerCall).forward_secrecy = false ↔
      true = true ∧ trial .salsa2012_poly1305 id true [8] [] = .fail
      ∧ ∃ p, trial .salsa2012_poly1305 id false [8] [] = .success p) :=
  C2_theorem true id id true false .salsa2012_poly1305 0 [8] [] ⟨0, 0⟩
    ⟨true, 8, [8]⟩ (by decide)

/-- C4 counterexample: a packet arriving as a head plus one trailing
fragment with 3 and 2 payload bytes increments total_bytes_received by
33 = 5 + 28, not by the 49 = 28 + 3 + 16 + 2 on-wire bytes the claim
demands (the 16-byte fragment header is not counted). -/
theorem C4_counterexample :
    (Peer.receive false id id false true .salsa2012_poly1305 5 [1, 2, 3]
        [some [4, 5]] ⟨0, 0⟩).1.total_bytes_received = 33
    ∧ 33 ≠ PACKET_HEADER_SIZE + (3 + (FRAGMENT_HEADER_SIZE + 2)) := by
  exact ⟨by decide, by decide⟩

theorem trial_success_length (cipher : Cipher) (dec : List Nat → List Nat)
    (auth : Bool) (frag0 : List Nat) (fragments : List (Option (List Nat)))
    (p : List Nat) (hdec : ∀ l, (dec l).length = l.length)
    (h : trial cipher dec auth frag0 fragments = .success p) :
    p.length = (assemblePayload frag0 fragments).length := by
  cases cipher <;> simp only [trial] at h
  case nocrypt_poly1305 =>
    split at h
    · split at h
      · injection h with h; rw [← h]
      · cases h
    · cases h
  case salsa2012_poly1305 =>
    split at h
    · injection h with h; rw [← h]; exact hdec _
    · cases h
  case aes_gmac_siv =>
    split at h
    · injection h with h; rw [← h]; exact hdec _
    · cases h
  case other => cases h

/-- C4 (amended): whenever receive accepts a packet it stores the invocation
time into last_receive_time_ticks and increments total_bytes_received by the
reassembled payload length plus the 28-byte packet header; the 16-byte
headers of trailing fragments are not counted, so for a fragmented packet
the increment is smaller than the total number of bytes that crossed the
wire. -/
theorem C4_theorem (ephemeralPresent : Bool) (decEph decStatic : List Nat → List Nat)
    (authEph authStatic : Bool) (cipher : Cipher) (t : Int) (frag0 : List Nat)
    (fragments : List (Option (List Nat))) (s : PeerRecvState)
    (hdecEph : ∀ l, (decEph l).length = l.length)
    (hdecStatic : ∀ l, (decStatic l).length = l.length)
    (hacc : recvAccepts ephemeralPresent decEph decStatic authEph authStatic
      cipher frag0 fragments) :
    (Peer.receive ephemeralPresent decEph decStatic authEph authStatic cipher t
        frag0 fragments s).1
      = ⟨t, s.total_bytes_received
          + ((assemblePayload frag0 fragments).length + PACKET_HEADER_SIZE)⟩ := by
  cases ephemeralPresent with
  | false =>
    rcases hacc with ⟨p, hp⟩ | ⟨hP, -, -⟩
    · have hp2 : trial cipher decStatic authStatic frag0 fragments
          = .success p := hp
      unfold Peer.receive
      simp only [Bool.false_eq_true, if_false]
      rw [hp2]
      simp only [acceptPacket]
      rw [trial_success_length _ _ _ _ _ _ hdecStatic hp2]
    · exact absurd hP (by simp)
  | true =>
    unfold Peer.receive
    simp only [if_true]
    rcases hacc with ⟨p, hp⟩ | ⟨-, hfail, p, hp⟩
    · have hp2 : trial cipher decEph authEph frag0 fragments = .success p := hp
      rw [hp2]
      simp only [acceptPacket]
      rw [trial_success_length _ _ _ _ _ _ hdecEph hp2]
    · rw [hfail, hp]
      simp only [acceptPacket]
      rw [trial_success_length _ _ _ _ _ _ hdecStatic hp]

theorem C4_witness :
    (Peer.receive false id id false true .salsa2012_poly1305 5 [1, 2, 3]
        [some [4, 5]] ⟨0, 0⟩).1
      = ⟨5, 0 + ((assemblePayload [1, 2, 3] [some [4, 5]]).length
          + PACKET_HEADER_SIZE)⟩ :=
  C4_theorem false id id false true .salsa2012_poly1305 5 [1, 2, 3]
    [some [4, 5]] ⟨0, 0⟩ (fun _ => rfl) (fun _ => rfl)
    (Or.inl ⟨[1, 2, 3, 4, 5], by decide⟩)

/-- C6: every dropped packet leaves the peer state untouched and invokes no
handler: a cleartext-mode packet whose verb is not HELLO, an unrecognized
cipher value, and a packet no trial secret authenticates all return with the
state unchanged and no handler call. -/
theorem C6_theorem (ephemeralPresent : Bool) (decEph decStatic : List Nat → List Nat)
    (authEph authStatic : Bool) (cipher : Cipher) (t : Int) (frag0 : List Nat)
    (fragments : List (Option (List Nat))) (s : PeerRecvState)
    (hne : frag0 ≠ [])
    (h : cipher = .other
      ∨ (cipher = .nocrypt_poly1305
          ∧ Nat.land (frag0.headD 0) VERB_MASK ≠ VERB_VL1_HELLO)
      ∨ (trial cipher (if ephemeralPresent then decEph else decStatic)
          (if ephemeralPresent then authEph else authStatic) frag0 fragments
            = .fail
        ∧ (ephemeralPresent = false
            ∨ trial cipher decStatic authStatic frag0 fragments = .fail))) :
    Peer.receive ephemeralPresent decEph decStatic authEph authStatic cipher t
      frag0 fragments s = (s, none) := by
  unfold Peer.receive
  rcases h with hcip | ⟨hcip, hverb⟩ | ⟨hfail, hrest⟩
  · subst hcip
    simp [trial]
  · subst hcip
    simp only [trial, if_neg hverb]
  · dsimp only
    rw [hfail]
    cases ephemeralPresent with
    | false => simp
    | true =>
      simp only [if_true]
      rcases hrest with hbad | hstat
      · exact absurd hbad (by simp)
      · rw [hstat]

theorem C6_witness :
    Peer.receive false id id false false .other 0 [8] [] ⟨0, 0⟩ = (⟨0, 0⟩, none) :=
  C6_theorem false id id false false .other 0 [8] [] ⟨0, 0⟩ (by decide)
    (Or.inl rfl)

/-- C1 code bug: encoding writes TYPE as the string 0 for a private network,
but decoding sets private to (TYPE = the string 1), so a private
configuration round-trips to a public one: with the concrete private
testConfig, encode followed by decode succeeds and yields private = false.
The private flag is inverted rather than round-tripped. -/
theorem C1_code_bug :
    ((NetworkConfig.v1_proto_to_dictionary testCodecs 1 testConfig).bind
        (fun d => (NetworkConfig.v1_proto_from_dictionary testCodecs d).toOption)).map
        (fun nc => nc.«private»)
      = some false
    ∧ testConfig.«private» = true := by
  exact ⟨by decide, by decide⟩

theorem readU16_at (pre rest : List Nat) (x : Nat) (hx : x < 2 ^ 16) :
    readU16 (pre ++ (appendU16 x ++ rest)) pre.length = some (x, pre.length + 2) := by
  unfold readU16 appendU16
  have hlen : (pre ++ ([x % 2 ^ 16 / 2 ^ 8, x % 2 ^ 8] ++ rest)).length
      = pre.length + (2 + rest.length) := by
    simp [List.length_append]
    omega
  rw [if_pos (by omega)]
  have h0 : (pre ++ ([x % 2 ^ 16 / 2 ^ 8, x % 2 ^ 8] ++ rest)).getD pre.length 0
      = x % 2 ^ 16 / 2 ^ 8 := by
    rw [List.getD_append_right _ _ _ _ le_rfl]
    simp
  have h1 : (pre ++ ([x % 2 ^ 16 / 2 ^ 8, x % 2 ^ 8] ++ rest)).getD (pre.length + 1) 0
      = x % 2 ^ 8 := by
    rw [List.getD_append_right _ _ _ _ (by omega)]
    simp
  rw [h0, h1]
  have : x % 2 ^ 16 / 2 ^ 8 * 2 ^ 8 + x % 2 ^ 8 = x := by omega
  rw [this]

/-- C10: for every IpRoute whose via is either none or a non-nil InetAddress,
unmarshal after marshal succeeds, returns an equal route, and consumes
exactly the marshaled bytes; an absent via is encoded as the single zero
byte (the nil InetAddress) and decoded back to none. The external
InetAddress codec is abstracted by hypotheses: marshaled addresses parse
back to themselves at any position, and a zero byte parses as a nil address
consuming one byte. -/
theorem C10_theorem {Inet : Type} (c : InetCodec Inet) (r : IpRoute Inet)
    (hrt : ∀ (a : Inet) (pre post : List Nat),
      c.unmarshal (pre ++ (c.marshal a ++ post)) pre.length
        = some (a, pre.length + (c.marshal a).length))
    (hnil : ∀ (pre post : List Nat), ∃ z : Inet,
      c.unmarshal (pre ++ 0 :: post) pre.length = some (z, pre.length + 1)
        ∧ c.is_nil z = true)
    (hvia : ∀ v, r.via = some v → c.is_nil v = false)
    (hf : r.flags < 2 ^ 16) (hm : r.metric < 2 ^ 16) :
    IpRoute.unmarshal c (IpRoute.marshal c r) 0
      = some (r, (IpRoute.marshal c r).length) := by
  obtain ⟨target, via, flags, metric⟩ := r
  cases via with
  | none =>
    have hmarsh : IpRoute.marshal c ⟨target, none, flags, metric⟩
        = c.marshal target ++ (0 :: (appendU16 flags ++ appendU16 metric)) := by
      simp [IpRoute.marshal]
    rw [hmarsh]
    have h1 : c.unmarshal
        (c.marshal target ++ (0 :: (appendU16 flags ++ appendU16 metric))) 0
        = some (target, (c.marshal target).length) := by
      have := hrt target [] (0 :: (appendU16 flags ++ appendU16 metric))
      simpa using this
    obtain ⟨z, hz, hznil⟩ := hnil (c.marshal target) (appendU16 flags ++ appendU16 metric)
    have h3 : readU16
        (c.marshal target ++ (0 :: (appendU16 flags ++ appendU16 metric)))
        ((c.marshal target).length + 1) = some (flags, (c.marshal target).length + 1 + 2) := by
      have := readU16_at (c.marshal target ++ [0]) (appendU16 metric) flags hf
      simpa [List.append_assoc] using this
    have h4 : readU16
        (c.marshal target ++ (0 :: (appendU16 flags ++ appendU16 metric)))
        ((c.marshal target).length + 1 + 2)
        = some (metric, (c.marshal target).length + 1 + 2 + 2) := by
      have := readU16_at (c.marshal target ++ [0] ++ appendU16 flags) [] metric hm
      simpa [List.append_assoc, appendU16] using this
    unfold IpRoute.unmarshal
    rw [h1]
    simp only [Bind.bind, Option.bind]
    rw [hz]
    simp only [Bind.bind, Option.bind]
    rw [h3]
    simp only [Bind.bind, Option.bind]
    rw [h4]
    simp only [Bind.bind, Option.bind, hznil]
    simp [appendU16]
  | some v =>
    have hmarsh : IpRoute.marshal c ⟨target, some v, flags, metric⟩
        = c.marshal target ++ (c.marshal v ++ (appendU16 flags ++ appendU16 metric)) := by
      simp [IpRoute.marshal]
    rw [hmarsh]
    have h1 : c.unmarshal
        (c.marshal target ++ (c.marshal v ++ (appendU16 flags ++ appendU16 metric))) 0
        = some (target, (c.marshal target).length) := by
      have := hrt target [] (c.marshal v ++ (appendU16 flags ++ appendU16 metric))
      simpa using this
    have h2 : c.unmarshal
        (c.marshal target ++ (c.marshal v ++ (appendU16 flags ++ appendU16 metric)))
        (c.marshal target).length
        = some (v, (c.marshal target).length + (c.marshal v).length) := by
      have := hrt v (c.marshal target) (appendU16 flags ++ appendU16 metric)
      simpa [List.append_assoc] using this
    have h3 : readU16
        (c.marshal target ++ (c.marshal v ++ (appendU16 flags ++ appendU16 metric)))
        ((c.marshal target).length + (c.marshal v).length)
        = some (flags, (c.marshal target).length + (c.marshal v).length + 2) := by
      have := readU16_at (c.marshal target ++ c.marshal v) (appendU16 metric) flags hf
      simpa [List.append_assoc] using this
    have h4 : readU16
        (c.marshal target ++ (c.marshal v ++ (appendU16 flags ++ appendU16 metric)))
        ((c.marshal target).length + (c.marshal v).length + 2)
        = some (metric, (c.marshal target).length + (c.marshal v).length + 2 + 2) := by
      have := readU16_at (c.marshal target ++ c.marshal v ++ appendU16 flags) [] metric hm
      simpa [List.append_assoc, appendU16] using this
    have hv : c.is_nil v = false := hvia v rfl
    unfold IpRoute.unmarshal
    rw [h1]
    simp only [Bind.bind, Option.bind]
    rw [h2]
    simp only [Bind.bind, Option.bind]
    rw [h3]
    simp only [Bind.bind, Option.bind]
    rw [h4]
    simp only [Bind.bind, Option.bind, hv]
    simp [appendU16]
    omega

theorem testInet_unmarshal_eq (buf : List Nat) (cur : Nat) :
    testInet.unmarshal buf cur
      = if cur < buf.length then
          match buf.getD cur 0 with
          | 0 => some (0, cur + 1)
          | 1 => if cur + 1 < buf.length then
              some (buf.getD (cur + 1) 0, cur + 2)
            else none
          | _ => none
        else none := rfl

theorem testInet_hrt (a : Nat) (pre post : List Nat) :
    testInet.unmarshal (pre ++ (testInet.marshal a ++ post)) pre.length
      = some (a, pre.length + (testInet.marshal a).length) := by
  rw [testInet_unmarshal_eq]
  by_cases ha : a = 0
  · subst ha
    have hm : testInet.marshal 0 = [0] := rfl
    rw [hm]
    rw [if_pos (by simp only [List.length_append, List.singleton_append,
      List.length_cons]; omega)]
    rw [List.getD_append_right _ _ _ _ le_rfl]
    simp
  · have hm : testInet.marshal a = [1, a] := by
      show (if a = 0 then [0] else [1, a]) = [1, a]
      rw [if_neg ha]
    rw [hm]
    rw [if_pos (by simp only [List.length_append, List.cons_append,
      List.length_cons]; omega)]
    rw [List.getD_append_right _ _ _ _ le_rfl]
    simp only [Nat.sub_self, List.cons_append, List.getD_cons_zero]
    rw [if_pos (by simp only [List.length_append, List.cons_append,
      List.length_cons]; omega)]
    rw [List.getD_append_right _ _ _ _ (by omega)]
    have hidx : pre.length + 1 - pre.length = 1 := by omega
    rw [hidx]
    simp

theorem testInet_hnil (pre post : List Nat) :
    ∃ z : Nat, testInet.unmarshal (pre ++ 0 :: post) pre.length
      = some (z, pre.length + 1) ∧ testInet.is_nil z = true := by
  refine ⟨0, ?_, rfl⟩
  rw [testInet_unmarshal_eq]
  rw [if_pos (by simp only [List.length_append, List.length_cons]; omega)]
  rw [List.getD_append_right _ _ _ _ le_rfl]
  simp

theorem C10_witness :
    IpRoute.unmarshal testInet
        (IpRoute.marshal testInet (⟨3, some 7, 258, 5⟩ : IpRoute Nat)) 0
      = some ((⟨3, some 7, 258, 5⟩ : IpRoute Nat), 8) :=
  (C10_theorem testInet ⟨3, some 7, 258, 5⟩ testInet_hrt testInet_hnil
      (fun v hv => by cases hv; rfl) (by decide) (by decide)).trans (by rfl)

theorem idSection_fails_iff {A : Type} (f : String → Option A) (o : Option String)
    (e1 e2 : String) :
    isOkE (idSection f o e1 e2) = false ↔ o = none ∨ ∃ s, o = some s ∧ f s = none := by
  cases o with
  | none => simp [idSection, isOkE]
  | some s =>
    cases hf : f s <;> simp [idSection, req, isOkE, hf]

theorem bytesSection_fails_iff (p : List Nat → Option (List Nat))
    (o : Option (List Nat)) :
    isOkE (bytesSection p o) = false ↔ ∃ b, o = some b ∧ p b = none := by
  cases o with
  | none => simp [bytesSection, isOkE]
  | some b =>
    cases hp : p b <;> simp [bytesSection, req, isOkE, hp]

theorem comSection_fails_iff (p : List Nat → Except String Nat)
    (o : Option (List Nat)) :
    isOkE (comSection p o) = false
      ↔ o = none ∨ ∃ b, o = some b ∧ isOkE (p b) = false := by
  cases o with
  | none => simp [comSection, isOkE]
  | some b =>
    cases hp : p b <;> simp [comSection, isOkE, hp]

theorem chainSection_fails_iff {A : Type}
    (step : List Nat → Except String (A × List Nat)) (o : Option (List Nat)) :
    isOkE (chainSection step o) = false
      ↔ ∃ b, o = some b ∧ isOkE (parseChain step b.length b) = false := by
  cases o with
  | none => simp [chainSection, isOkE]
  | some b =>
    cases hp : parseChain step b.length b <;> simp [chainSection, isOkE, hp]

theorem v1_decode_view_spec (cx : V1Codecs) (v : DictView) :
    (isOkE (v1_decode_view cx v) = false ↔ decodeFailCond cx v)
    ∧ ∀ nc, v1_decode_view cx v = .ok nc → nc.dns = dnsDecode cx v.dns := by
  unfold v1_decode_view decodeFailCond
  cases h1 : idSection cx.netIdFromStr v.nwid "missing network ID" "invalid network ID" with
  | error e =>
    simp only [Bind.bind, Except.bind, isOkE]
    constructor
    · refine ⟨fun _ => Or.inl ?_, fun _ => trivial⟩
      exact (idSection_fails_iff _ _ _ _).mp (by rw [h1]; rfl)
    · intro nc hc; exact absurd hc (by simp)
  | ok nwid =>
  have h1f : (v.nwid = none ∨ ∃ s, v.nwid = some s ∧ cx.netIdFromStr s = none) → False :=
    fun hx => by
      have := (idSection_fails_iff cx.netIdFromStr v.nwid
        "missing network ID" "invalid network ID").mpr hx
      rw [h1] at this
      exact absurd this (by simp [isOkE])
  simp only [Bind.bind, Except.bind]
  cases h2 : idSection cx.addrFromStr v.issuedTo "missing address" "invalid address" with
  | error e =>
    simp only [isOkE]
    constructor
    · refine ⟨fun _ => Or.inr (Or.inl ?_), fun _ => trivial⟩
      exact (idSection_fails_iff _ _ _ _).mp (by rw [h2]; rfl)
    · intro nc hc; exact absurd hc (by simp)
  | ok issued_to_address =>
  have h2f : (v.issuedTo = none ∨ ∃ s, v.issuedTo = some s ∧ cx.addrFromStr s = none)
      → False :=
    fun hx => by
      have := (idSection_fails_iff cx.addrFromStr v.issuedTo
        "missing address" "invalid address").mpr hx
      rw [h2] at this
      exact absurd this (by simp [isOkE])
  cases h3 : v.ts with
  | none =>
    simp only [req, isOkE]
    constructor
    · exact ⟨fun _ => Or.inr (Or.inr (Or.inl trivial)), fun _ => trivial⟩
    · intro nc hc; exact absurd hc (by simp)
  | some ts =>
  simp only [req]
  cases h4 : bytesSection cx.routesFromBytes v.routes with
  | error e =>
    simp only [isOkE]
    constructor
    · refine ⟨fun _ => Or.inr (Or.inr (Or.inr (Or.inl ?_))), fun _ => trivial⟩
      exact (bytesSection_fails_iff _ _).mp (by rw [h4]; rfl)
    · intro nc hc; exact absurd hc (by simp)
  | ok routes =>
  have h4f : (∃ b, v.routes = some b ∧ cx.routesFromBytes b = none) → False :=
    fun hx => by
      have := (bytesSection_fails_iff cx.routesFromBytes v.routes).mpr hx
      rw [h4] at this
      exact absurd this (by simp [isOkE])
  cases h5 : bytesSection cx.ipsFromBytes v.staticIps with
  | error e =>
    simp only [isOkE]
    constructor
    · refine ⟨fun _ => Or.inr (Or.inr (Or.inr (Or.inr (Or.inl ?_)))), fun _ => trivial⟩
      exact (bytesSection_fails_iff _ _).mp (by rw [h5]; rfl)
    · intro nc hc; exact absurd hc (by simp)
  | ok static_ips =>
  have h5f : (∃ b, v.staticIps = some b ∧ cx.ipsFromBytes b = none) → False :=
    fun hx => by
      have := (bytesSection_fails_iff cx.ipsFromBytes v.staticIps).mpr hx
      rw [h5] at this
      exact absurd this (by simp [isOkE])
  cases h6 : bytesSection cx.rulesFromBytes v.rules with
  | error e =>
    simp only [isOkE]
    constructor
    · refine ⟨fun _ => Or.inr (Or.inr (Or.inr (Or.inr (Or.inr (Or.inl ?_))))),
        fun _ => trivial⟩
      exact (bytesSection_fails_iff _ _).mp (by rw [h6]; rfl)
    · intro nc hc; exact absurd hc (by simp)
  | ok rules =>
  have h6f : (∃ b, v.rules = some b ∧ cx.rulesFromBytes b = none) → False :=
    fun hx => by
      have := (bytesSection_fails_iff cx.rulesFromBytes v.rules).mpr hx
      rw [h6] at this
      exact absurd this (by simp [isOkE])
  cases h7 : comSection cx.comFromBytes v.com with
  | error e =>
    simp only [isOkE]
    constructor
    · refine ⟨fun _ =>
        Or.inr (Or.inr (Or.inr (Or.inr (Or.inr (Or.inr (Or.inl ?_)))))),
        fun _ => trivial⟩
      exact (comSection_fails_iff _ _).mp (by rw [h7]; rfl)
    · intro nc hc; exact absurd hc (by simp)
  | ok com =>
  have h7f : (v.com = none ∨ ∃ b, v.com = some b ∧ isOkE (cx.comFromBytes b) = false)
      → False :=
    fun hx => by
      have := (comSection_fails_iff cx.comFromBytes v.com).mpr hx
      rw [h7] at this
      exact absurd this (by simp [isOkE])
  cases h8 : chainSection cx.cooFromBytes v.coo with
  | error e =>
    simp only [isOkE]
    constructor
    · refine ⟨fun _ =>
        Or.inr (Or.inr (Or.inr (Or.inr (Or.inr (Or.inr (Or.inr (Or.inl ?_))))))),
        fun _ => trivial⟩
      exact (chainSection_fails_iff _ _).mp (by rw [h8]; rfl)
    · intro nc hc; exact absurd hc (by simp)
  | ok coos =>
  have h8f : (∃ b, v.coo = some b ∧ isOkE (parseChain cx.cooFromBytes b.length b) = false)
      → False :=
    fun hx => by
      have := (chainSection_fails_iff cx.cooFromBytes v.coo).mpr hx
      rw [h8] at this
      exact absurd this (by simp [isOkE])
  cases h9 : chainSection cx.tagFromBytes v.tags with
  | error e =>
    simp only [isOkE]
    constructor
    · refine ⟨fun _ =>
        Or.inr (Or.inr (Or.inr (Or.inr (Or.inr (Or.inr (Or.inr (Or.inr ?_))))))),
        fun _ => trivial⟩
      exact (chainSection_fails_iff _ _).mp (by rw [h9]; rfl)
    · intro nc hc; exact absurd hc (by simp)
  | ok tag_list =>
  have h9f : (∃ b, v.tags = some b ∧ isOkE (parseChain cx.tagFromBytes b.length b) = false)
      → False :=
    fun hx => by
      have := (chainSection_fails_iff cx.tagFromBytes v.tags).mpr hx
      rw [h9] at this
      exact absurd this (by simp [isOkE])
  constructor
  · constructor
    · intro hx; exact absurd hx (by simp [isOkE])
    · rintro (hx | hx | hx | hx | hx | hx | hx | hx | hx)
      · exact absurd hx h1f
      · exact absurd hx h2f
      · exact absurd hx (by simp)
      · exact absurd hx h4f
      · exact absurd hx h5f
      · exact absurd hx h6f
      · exact absurd hx h7f
      · exact absurd hx h8f
      · exact absurd hx h9f
  · intro nc hc
    injection hc with hc
    rw [← hc]

theorem Dict.get_erase_ne (d : Dict) (k key : String) (h : key ≠ k) :
    Dict.get (Dict.erase d k) key = Dict.get d key := by
  induction d with
  | nil => rfl
  | cons kv rest ih =>
    obtain ⟨k0, v0⟩ := kv
    rw [Dict.erase, List.filter_cons]
    by_cases hk : k0 = k
    · subst hk
      rw [if_neg (by simp)]
      rw [show Dict.get ((k0, v0) :: rest) key = Dict.get rest key from ?_]
      · exact ih
      · simp only [Dict.get]
        rw [if_neg (fun e => h e.symm)]
    · rw [if_pos (by simpa using hk)]
      simp only [Dict.get]
      by_cases hky : k0 = key
      · rw [if_pos hky, if_pos hky]
      · rw [if_neg hky, if_neg hky]
        exact ih

theorem Dict.get_erase_self (d : Dict) (k : String) :
    Dict.get (Dict.erase d k) k = none := by
  induction d with
  | nil => rfl
  | cons kv rest ih =>
    obtain ⟨k0, v0⟩ := kv
    rw [Dict.erase, List.filter_cons]
    by_cases hk : k0 = k
    · subst hk
      rw [if_neg (by simp)]
      exact ih
    · rw [if_pos (by simpa using hk)]
      simp only [Dict.get]
      rw [if_neg hk]
      exact ih

theorem Dict.get_append (d1 d2 : Dict) (key : String) :
    Dict.get (d1 ++ d2) key
      = match Dict.get d1 key with
        | some v => some v
        | none => Dict.get d2 key := by
  induction d1 with
  | nil => rfl
  | cons kv rest ih =>
    obtain ⟨k0, v0⟩ := kv
    simp only [List.cons_append, Dict.get]
    by_cases hk : k0 = key
    · rw [if_pos hk, if_pos hk]
    · rw [if_neg hk, if_neg hk]
      exact ih

theorem Dict.get_set_ne (d : Dict) (k key : String) (val : DictVal) (h : key ≠ k) :
    Dict.get (Dict.set d k val) key = Dict.get d key := by
  rw [Dict.set, Dict.get_append, Dict.get_erase_ne d k key h]
  cases hd : Dict.get d key with
  | some v => rfl
  | none =>
    simp only [Dict.get]
    rw [if_neg (fun e => h e.symm)]

theorem Dict.get_str_set_ne (d : Dict) (k key : String) (val : DictVal)
    (h : key ≠ k) : Dict.get_str (Dict.set d k val) key = Dict.get_str d key := by
  unfold Dict.get_str
  rw [Dict.get_set_ne d k key val h]

theorem Dict.get_u64_set_ne (d : Dict) (k key : String) (val : DictVal)
    (h : key ≠ k) : Dict.get_u64 (Dict.set d k val) key = Dict.get_u64 d key := by
  unfold Dict.get_u64
  rw [Dict.get_set_ne d k key val h]

theorem Dict.get_i64_set_ne (d : Dict) (k key : String) (val : DictVal)
    (h : key ≠ k) : Dict.get_i64 (Dict.set d k val) key = Dict.get_i64 d key := by
  unfold Dict.get_i64
  rw [Dict.get_set_ne d k key val h]

theorem Dict.get_bool_set_ne (d : Dict) (k key : String) (val : DictVal)
    (h : key ≠ k) : Dict.get_bool (Dict.set d k val) key = Dict.get_bool d key := by
  unfold Dict.get_bool
  rw [Dict.get_set_ne d k key val h]

theorem Dict.get_bytes_set_ne (d : Dict) (k key : String) (val : DictVal)
    (h : key ≠ k) : Dict.get_bytes (Dict.set d k val) key = Dict.get_bytes d key := by
  unfold Dict.get_bytes
  rw [Dict.get_set_ne d k key val h]

theorem Dict.get_str_erase_ne (d : Dict) (k key : String) (h : key ≠ k) :
    Dict.get_str (Dict.erase d k) key = Dict.get_str d key := by
  unfold Dict.get_str
  rw [Dict.get_erase_ne d k key h]

theorem Dict.get_u64_erase_ne (d : Dict) (k key : String) (h : key ≠ k) :
    Dict.get_u64 (Dict.erase d k) key = Dict.get_u64 d key := by
  unfold Dict.get_u64
  rw [Dict.get_erase_ne d k key h]

theorem Dict.get_i64_erase_ne (d : Dict) (k key : String) (h : key ≠ k) :
    Dict.get_i64 (Dict.erase d k) key = Dict.get_i64 d key := by
  unfold Dict.get_i64
  rw [Dict.get_erase_ne d k key h]

theorem Dict.get_bool_erase_ne (d : Dict) (k key : String) (h : key ≠ k) :
    Dict.get_bool (Dict.erase d k) key = Dict.get_bool d key := by
  unfold Dict.get_bool
  rw [Dict.get_erase_ne d k key h]

theorem Dict.get_bytes_erase_ne (d : Dict) (k key : String) (h : key ≠ k) :
    Dict.get_bytes (Dict.erase d k) key = Dict.get_bytes d key := by
  unfold Dict.get_bytes
  rw [Dict.get_erase_ne d k key h]

theorem Dict.get_bytes_erase_self (d : Dict) (k : String) :
    Dict.get_bytes (Dict.erase d k) k = none := by
  unfold Dict.get_bytes
  rw [Dict.get_erase_self]

open proto_v1_field_name.network_config in
theorem Dict.view_set_unknown (d : Dict) (k : String) (val : DictVal)
    (hk : k ∉ v1DecodeKeys) : Dict.view (Dict.set d k val) = Dict.view d := by
  have hne : ∀ s, s ∈ v1DecodeKeys → s ≠ k := fun s hs e => hk (e ▸ hs)
  unfold Dict.view
  rw [Dict.get_str_set_ne d k NETWORK_ID val (hne _ (by decide)),
    Dict.get_str_set_ne d k NAME val (hne _ (by decide)),
    Dict.get_str_set_ne d k ISSUED_TO val (hne _ (by decide)),
    Dict.get_str_set_ne d k TYPE val (hne _ (by decide)),
    Dict.get_i64_set_ne d k TIMESTAMP val (hne _ (by decide)),
    Dict.get_i64_set_ne d k MAX_DELTA val (hne _ (by decide)),
    Dict.get_u64_set_ne d k REVISION val (hne _ (by decide)),
    Dict.get_u64_set_ne d k MTU val (hne _ (by decide)),
    Dict.get_u64_set_ne d k MULTICAST_LIMIT val (hne _ (by decide)),
    Dict.get_bytes_set_ne d k ROUTES val (hne _ (by decide)),
    Dict.get_bytes_set_ne d k STATIC_IPS val (hne _ (by decide)),
    Dict.get_bytes_set_ne d k RULES val (hne _ (by decide)),
    Dict.get_bytes_set_ne d k DNS val (hne _ (by decide)),
    Dict.get_bytes_set_ne d k CERTIFICATE_OF_MEMBERSHIP val (hne _ (by decide)),
    Dict.get_bytes_set_ne d k CERTIFICATES_OF_OWNERSHIP val (hne _ (by decide)),
    Dict.get_bytes_set_ne d k TAGS val (hne _ (by decide)),
    Dict.get_str_set_ne d k CENTRAL_URL val (hne _ (by decide)),
    Dict.get_bool_set_ne d k SSO_ENABLED val (hne _ (by decide)),
    Dict.get_u64_set_ne d k SSO_VERSION val (hne _ (by decide)),
    Dict.get_str_set_ne d k SSO_AUTHENTICATION_URL val (hne _ (by decide)),
    Dict.get_i64_set_ne d k SSO_AUTHENTICATION_EXPIRY_TIME val (hne _ (by decide)),
    Dict.get_str_set_ne d k SSO_ISSUER_URL val (hne _ (by decide)),
    Dict.get_str_set_ne d k SSO_NONCE val (hne _ (by decide)),
    Dict.get_str_set_ne d k SSO_STATE val (hne _ (by decide)),
    Dict.get_str_set_ne d k SSO_CLIENT_ID val (hne _ (by decide))]

open proto_v1_field_name.network_config in
theorem Dict.view_erase_dns (d : Dict) :
    Dict.view (Dict.erase d DNS) = { Dict.view d with dns := none } := by
  unfold Dict.view
  rw [Dict.get_str_erase_ne d DNS NETWORK_ID (by decide),
    Dict.get_str_erase_ne d DNS NAME (by decide),
    Dict.get_str_erase_ne d DNS ISSUED_TO (by decide),
    Dict.get_str_erase_ne d DNS TYPE (by decide),
    Dict.get_i64_erase_ne d DNS TIMESTAMP (by decide),
    Dict.get_i64_erase_ne d DNS MAX_DELTA (by decide),
    Dict.get_u64_erase_ne d DNS REVISION (by decide),
    Dict.get_u64_erase_ne d DNS MTU (by decide),
    Dict.get_u64_erase_ne d DNS MULTICAST_LIMIT (by decide),
    Dict.get_bytes_erase_ne d DNS ROUTES (by decide),
    Dict.get_bytes_erase_ne d DNS STATIC_IPS (by decide),
    Dict.get_bytes_erase_ne d DNS RULES (by decide),
    Dict.get_bytes_erase_self d DNS,
    Dict.get_bytes_erase_ne d DNS CERTIFICATE_OF_MEMBERSHIP (by decide),
    Dict.get_bytes_erase_ne d DNS CERTIFICATES_OF_OWNERSHIP (by decide),
    Dict.get_bytes_erase_ne d DNS TAGS (by decide),
    Dict.get_str_erase_ne d DNS CENTRAL_URL (by decide),
    Dict.get_bool_erase_ne d DNS SSO_ENABLED (by decide),
    Dict.get_u64_erase_ne d DNS SSO_VERSION (by decide),
    Dict.get_str_erase_ne d DNS SSO_AUTHENTICATION_URL (by decide),
    Dict.get_i64_erase_ne d DNS SSO_AUTHENTICATION_EXPIRY_TIME (by decide),
    Dict.get_str_erase_ne d DNS SSO_ISSUER_URL (by decide),
    Dict.get_str_erase_ne d DNS SSO_NONCE (by decide),
    Dict.get_str_erase_ne d DNS SSO_STATE (by decide),
    Dict.get_str_erase_ne d DNS SSO_CLIENT_ID (by decide)]

/-- C8: v1_proto_from_dictionary returns a typed error exactly when the
network ID is missing or invalid, the issued-to address is missing or
invalid, the timestamp is missing, a routes, static-IPs or rules section is
present but malformed, the certificate of membership is missing or invalid,
or a certificates-of-ownership or tags section is malformed; and setting any
key outside the set the decoder reads leaves the decoding result unchanged,
so unknown keys are ignored and never cause an error. -/
theorem C8_theorem (cx : V1Codecs) (d : Dict) :
    (isOkE (NetworkConfig.v1_proto_from_dictionary cx d) = false
      ↔ decodeFailCond cx (Dict.view d))
    ∧ ∀ (k : String) (val : DictVal), k ∉ v1DecodeKeys →
      NetworkConfig.v1_proto_from_dictionary cx (Dict.set d k val)
        = NetworkConfig.v1_proto_from_dictionary cx d := by
  constructor
  · exact (v1_decode_view_spec cx (Dict.view d)).1
  · intro k val hk
    unfold NetworkConfig.v1_proto_from_dictionary
    rw [Dict.view_set_unknown d k val hk]

theorem C8_witness :
    (isOkE (NetworkConfig.v1_proto_from_dictionary testCodecs []) = false
      ↔ decodeFailCond testCodecs (Dict.view []))
    ∧ NetworkConfig.v1_proto_from_dictionary testCodecs
        (Dict.set [] "zzz" (.str "x"))
      = NetworkConfig.v1_proto_from_dictionary testCodecs [] :=
  ⟨(C8_theorem testCodecs []).1,
    (C8_theorem testCodecs []).2 "zzz" (.str "x") (by decide)⟩

theorem dnsDecode_out_of_range (cx : V1Codecs) (b : List Nat)
    (h : b.length ≤ 128 ∨ 1024 ≤ b.length) :
    dnsDecode cx (some b) = [] := by
  simp only [dnsDecode]
  rw [if_neg (by omega)]

theorem v1_decode_view_dns_out_of_range (cx : V1Codecs) (v : DictView)
    (b : List Nat) (hv : v.dns = some b)
    (h : b.length ≤ 128 ∨ 1024 ≤ b.length) :
    v1_decode_view cx v = v1_decode_view cx { v with dns := none } := by
  obtain ⟨f1, f2, f3, f4, f5, f6, f7, f8, f9, f10, f11, f12, f13, f14, f15,
    f16, f17, f18, f19, f20, f21, f22, f23, f24, f25⟩ := v
  simp only at hv
  subst hv
  unfold v1_decode_view
  dsimp only
  rw [dnsDecode_out_of_range cx b h]
  rfl

/-- C9: a decoded configuration carries a DNS entry only when the DNS blob
length is strictly between 128 and 1024; a blob outside that range
contributes nothing and is not an error: decoding with such a blob equals
decoding with the DNS key removed, and any successfully decoded
configuration has an empty dns map. -/
theorem C9_theorem (cx : V1Codecs) (d : Dict) (b : List Nat) :
    (∀ nc, NetworkConfig.v1_proto_from_dictionary cx d = .ok nc → nc.dns ≠ [] →
      ∃ bb, Dict.get_bytes d proto_v1_field_name.network_config.DNS = some bb
        ∧ 128 < bb.length ∧ bb.length < 1024)
    ∧ (Dict.get_bytes d proto_v1_field_name.network_config.DNS = some b →
      b.length ≤ 128 ∨ 1024 ≤ b.length →
      NetworkConfig.v1_proto_from_dictionary cx d
        = NetworkConfig.v1_proto_from_dictionary cx
            (Dict.erase d proto_v1_field_name.network_config.DNS)
      ∧ ∀ nc, NetworkConfig.v1_proto_from_dictionary cx d = .ok nc →
          nc.dns = []) := by
  have hview : (Dict.view d).dns
      = Dict.get_bytes d proto_v1_field_name.network_config.DNS := rfl
  constructor
  · intro nc hok hne
    have hdns := (v1_decode_view_spec cx (Dict.view d)).2 nc hok
    rw [hview] at hdns
    cases hb2 : Dict.get_bytes d proto_v1_field_name.network_config.DNS with
    | none =>
      rw [hb2] at hdns
      exact absurd hdns hne
    | some bb =>
      rw [hb2] at hdns
      by_cases hr : 128 < bb.length ∧ bb.length < 1024
      · exact ⟨bb, rfl, hr⟩
      · rw [dnsDecode_out_of_range cx bb (by omega)] at hdns
        exact absurd hdns hne
  · intro hb hout
    constructor
    · unfold NetworkConfig.v1_proto_from_dictionary
      rw [Dict.view_erase_dns]
      exact v1_decode_view_dns_out_of_range cx (Dict.view d) b
        (hview.trans hb) hout
    · intro nc hok
      have hdns := (v1_decode_view_spec cx (Dict.view d)).2 nc hok
      rw [hview, hb, dnsDecode_out_of_range cx b hout] at hdns
      exact hdns

theorem C9_witness :
    NetworkConfig.v1_proto_from_dictionary testCodecs
        (Dict.set [] proto_v1_field_name.network_config.DNS (.bytes [1, 2, 3]))
      = NetworkConfig.v1_proto_from_dictionary testCodecs
          (Dict.erase
            (Dict.set [] proto_v1_field_name.network_config.DNS (.bytes [1, 2, 3]))
            proto_v1_field_name.network_config.DNS)
    ∧ ∀ nc, NetworkConfig.v1_proto_from_dictionary testCodecs
        (Dict.set [] proto_v1_field_name.network_config.DNS (.bytes [1, 2, 3]))
        = .ok nc → nc.dns = [] :=
  (C9_theorem testCodecs
      (Dict.set [] proto_v1_field_name.network_config.DNS (.bytes [1, 2, 3]))
      [1, 2, 3]).2 (by decide) (by decide)

theorem cdiv_pos (a q : Nat) (ha : 0 < a) (hq : 0 < q) : 0 < cdiv a q := by
  unfold cdiv
  by_cases h : a % q = 0
  · rw [if_pos h]
    have hd : q ∣ a := Nat.dvd_of_mod_eq_zero h
    have hle : q ≤ a := Nat.le_of_dvd ha hd
    have := Nat.div_pos hle hq
    exact Nat.lt_of_lt_of_le this (Nat.le_add_right _ _)
  · rw [if_neg h]
    exact Nat.lt_of_lt_of_le Nat.one_pos (Nat.le_add_left _ _)

theorem cdiv_sub (a q : Nat) (hq : 0 < q) (h : q < a) :
    cdiv a q = cdiv (a - q) q + 1 := by
  unfold cdiv
  rw [Nat.div_eq_sub_div hq (le_of_lt h), Nat.mod_eq_sub_mod (le_of_lt h)]
  by_cases h2 : (a - q) % q = 0
  · rw [if_pos h2]
  · rw [if_neg h2]

theorem cdiv_one (a q : Nat) (ha : 0 < a) (h : a ≤ q) : cdiv a q = 1 := by
  unfold cdiv
  rcases Nat.lt_or_ge a q with hlt | hge
  · rw [Nat.div_eq_of_lt hlt, Nat.mod_eq_of_lt hlt, if_neg (by omega)]
  · have he : a = q := le_antisymm h hge
    subst he
    rw [Nat.div_self ha, Nat.mod_self, if_pos rfl]

theorem cdiv_le (a q : Nat) (hq : 0 < q) : cdiv a q ≤ a := by
  induction a using Nat.strong_induction_on with
  | _ a ih =>
    rcases Nat.eq_zero_or_pos a with rfl | ha
    · simp [cdiv]
    · rcases Nat.lt_or_ge q a with hlt | hge
      · rw [cdiv_sub a q hq hlt]
        have := ih (a - q) (by omega)
        omega
      · rw [cdiv_one a q ha hge]
        omega

theorem firstFalse_ge (wire : Nat → Bool) :
    ∀ (n s k : Nat), firstFalse wire s n = some k → s ≤ k := by
  intro n
  induction n with
  | zero =>
    intro s k h
    exact absurd h (by simp [firstFalse])
  | succ n ih =>
    intro s k h
    unfold firstFalse at h
    split at h
    · have := ih (s + 1) k h
      omega
    · injection h with h
      omega

theorem spec_list_shift (mtu fhs size pos hdr c : Nat) :
    (List.range (c + 1)).map (fun j =>
        (⟨pos + j * (mtu - fhs),
          min (size - (pos + j * (mtu - fhs))) (mtu - fhs),
          some ((hdr + j + 1) % 256)⟩ : WireCall))
      = ⟨pos, min (size - pos) (mtu - fhs), some ((hdr + 1) % 256)⟩ ::
        (List.range c).map (fun j =>
          (⟨pos + (mtu - fhs) + j * (mtu - fhs),
            min (size - (pos + (mtu - fhs) + j * (mtu - fhs))) (mtu - fhs),
            some (((hdr + 1) % 256 + j + 1) % 256)⟩ : WireCall)) := by
  rw [List.range_succ_eq_map, List.map_cons, List.map_map]
  congr 1
  · simp
  · apply List.map_congr_left
    intro j hj
    simp only [Function.comp_apply, Nat.succ_eq_add_one]
    have h1 : pos + (j + 1) * (mtu - fhs) = pos + (mtu - fhs) + j * (mtu - fhs) := by
      rw [Nat.succ_mul]
      omega
    rw [h1]
    simp only [WireCall.mk.injEq, Option.some.injEq]
    refine ⟨trivial, trivial, ?_⟩
    omega

theorem fragLoop_spec (mtu fhs size : Nat) (wire : Nat → Bool) :
    ∀ (c pos hdr idx fuel : Nat), fhs < mtu → pos < size →
      cdiv (size - pos) (mtu - fhs) = c → c ≤ fuel →
      Peer.fragLoop mtu fhs size wire fuel pos hdr idx =
        match firstFalse wire idx c with
        | none => (true, (List.range c).map (fun j =>
            (⟨pos + j * (mtu - fhs),
              min (size - (pos + j * (mtu - fhs))) (mtu - fhs),
              some ((hdr + j + 1) % 256)⟩ : WireCall)))
        | some k => (false, ((List.range c).map (fun j =>
            (⟨pos + j * (mtu - fhs),
              min (size - (pos + j * (mtu - fhs))) (mtu - fhs),
              some ((hdr + j + 1) % 256)⟩ : WireCall))).take (k - idx + 1)) := by
  intro c
  induction c with
  | zero =>
    intro pos hdr idx fuel hq hpos hc _
    have := cdiv_pos (size - pos) (mtu - fhs) (by omega) (by omega)
    omega
  | succ c ih =>
    intro pos hdr idx fuel hq hpos hc hfuel
    obtain ⟨fuel, rfl⟩ : ∃ f, fuel = f + 1 := ⟨fuel - 1, by omega⟩
    have hCF : ∀ s n, firstFalse wire s (n + 1)
        = if wire s then firstFalse wire (s + 1) n else some s := fun s n => rfl
    unfold Peer.fragLoop
    dsimp only
    rw [spec_list_shift]
    by_cases hw : wire idx
    · rw [if_pos hw]
      rw [hCF idx c, if_pos hw]
      by_cases hlt : pos + min (size - pos) (mtu - fhs) < size
      · have hchunk : min (size - pos) (mtu - fhs) = mtu - fhs := by
          rcases Nat.le_total (size - pos) (mtu - fhs) with hmm | hmm
          · exfalso
            rw [Nat.min_eq_left hmm] at hlt
            omega
          · exact Nat.min_eq_right hmm
        have hqlt : mtu - fhs < size - pos := by
          rw [hchunk] at hlt
          omega
        rw [if_pos hlt]
        have hc2 : cdiv (size - (pos + min (size - pos) (mtu - fhs))) (mtu - fhs) = c := by
          rw [hchunk]
          have hsub := cdiv_sub (size - pos) (mtu - fhs) (by omega) hqlt
          rw [hsub] at hc
          have harg : size - pos - (mtu - fhs) = size - (pos + (mtu - fhs)) := by omega
          rw [harg] at hc
          omega
        have hrec := ih (pos + min (size - pos) (mtu - fhs)) ((hdr + 1) % 256)
          (idx + 1) fuel hq (by rw [hchunk]; omega) hc2 (by omega)
        rw [hrec, hchunk]
        cases hff : firstFalse wire (idx + 1) c with
        | none => rfl
        | some k =>
          have hk := firstFalse_ge wire c (idx + 1) k hff
          dsimp only
          have hcount : k - idx + 1 = (k - (idx + 1) + 1) + 1 := by omega
          rw [hcount, List.take_succ_cons]
      · rw [if_neg hlt]
        have hle : size - pos ≤ mtu - fhs := by
          rcases Nat.le_total (size - pos) (mtu - fhs) with hmm | hmm
          · exact hmm
          · rw [Nat.min_eq_right hmm] at hlt
            omega
        have hc0 : c = 0 := by
          have h1 := cdiv_one (size - pos) (mtu - fhs) (by omega) hle
          omega
        subst hc0
        rw [show firstFalse wire (idx + 1) 0 = none from rfl]
        rfl
    · rw [if_neg hw]
      rw [hCF idx c, if_neg hw]
      dsimp only
      rw [Nat.sub_self, List.take_succ_cons, List.take_zero]

/-- C3: send_udp sends the whole buffer in one wire_send call when it fits
in the MTU; otherwise it sends the first mtu bytes unprefixed, then one
fragment per loop iteration whose cursor advances by min(remaining,
mtu - fragment header size), each carrying a FragmentHeader whose
total_and_fragment_no byte increments, for a total of
ceil((size - mtu)/(mtu - fhs)) + 1 calls including the head; the first
failing wire_send stops the sequence immediately with result false, and the
result is true exactly when every call succeeded. -/
theorem C3_theorem (mtu fhs size : Nat) (wire : Nat → Bool) (h : fhs < mtu) :
    (size ≤ mtu → Peer.send_udp mtu fhs wire size = (wire 0, [⟨0, size, none⟩]))
    ∧ (mtu < size →
      Peer.send_udp mtu fhs wire size =
        match firstFalse wire 0 (fragment_count mtu fhs size + 1) with
        | none => (true, ⟨0, mtu, none⟩ ::
            (List.range (fragment_count mtu fhs size)).map (fun j =>
              (⟨mtu + j * (mtu - fhs),
                min (size - (mtu + j * (mtu - fhs))) (mtu - fhs),
                some (((fragment_count mtu fhs size + 1) * 16 % 256 + j + 1)
                  % 256)⟩ : WireCall)))
        | some k => (false, (⟨0, mtu, none⟩ ::
            (List.range (fragment_count mtu fhs size)).map (fun j =>
              (⟨mtu + j * (mtu - fhs),
                min (size - (mtu + j * (mtu - fhs))) (mtu - fhs),
                some (((fragment_count mtu fhs size + 1) * 16 % 256 + j + 1)
                  % 256)⟩ : WireCall))).take (k + 1))) := by
  constructor
  · intro hle
    unfold Peer.send_udp
    rw [if_neg (by omega)]
  · intro hgt
    have hCF : ∀ s n, firstFalse wire s (n + 1)
        = if wire s then firstFalse wire (s + 1) n else some s := fun s n => rfl
    unfold Peer.send_udp
    rw [if_pos (by omega)]
    dsimp only
    rw [hCF 0 (fragment_count mtu fhs size)]
    by_cases hw : wire 0
    · rw [if_pos hw, if_pos hw]
      have hcd : cdiv (size - mtu) (mtu - fhs) = fragment_count mtu fhs size := rfl
      have hfc_le : fragment_count mtu fhs size ≤ size := by
        have := cdiv_le (size - mtu) (mtu - fhs) (by omega)
        rw [hcd] at this
        omega
      have hspec := fragLoop_spec mtu fhs size wire (fragment_count mtu fhs size)
        mtu ((fragment_count mtu fhs size + 1) * 16 % 256) 1 size h hgt hcd hfc_le
      rw [hspec]
      cases hff : firstFalse wire 1 (fragment_count mtu fhs size) with
      | none => rfl
      | some k =>
        have hk := firstFalse_ge wire (fragment_count mtu fhs size) 1 k hff
        dsimp only
        have hcount : k + 1 = (k - 1 + 1) + 1 := by omega
        rw [hcount, List.take_succ_cons]
    · rw [if_neg hw, if_neg hw]
      dsimp only
      rw [List.take_succ_cons, List.take_zero]

theorem C3_witness :
    Peer.send_udp 5 2 (fun _ => true) 12
      = (true, [⟨0, 5, none⟩, ⟨5, 3, some 65⟩, ⟨8, 3, some 66⟩, ⟨11, 1, some 67⟩])
    ∧ Peer.send_udp 5 2 (fun i => decide (i < 2)) 12
      = (false, [⟨0, 5, none⟩, ⟨5, 3, some 65⟩, ⟨8, 3, some 66⟩])
    ∧ Peer.send_udp 5 2 (fun _ => true) 4 = (true, [⟨0, 4, none⟩]) := by
  refine ⟨?_, ?_, ?_⟩
  · exact ((C3_theorem 5 2 12 (fun _ => true) (by decide)).2 (by decide)).trans
      (by decide)
  · exact ((C3_theorem 5 2 12 (fun i => decide (i < 2)) (by decide)).2
      (by decide)).trans (by decide)
  · exact ((C3_theorem 5 2 4 (fun _ => true) (by decide)).1 (by decide)).trans
      (by decide)
